import Mathlib

/-!
Verification of the engine-analysis session manager of the Chess-Viewer
repository.

The embedded code is the `StockfishService` found in
`src/app/services/MoveTreeService.ts` (lines 106-507, after the first
file separator) and the `ChessEngineService` / `EngineAnalysisService`
variant in `src/app/services/ChessEngineService.ts`.

Modelling conventions:
* JS numbers are `ℚ` (scores, which the source divides by 100), `ℤ`
  (signed integer fields) or `ℕ` (regex `\d+` captures).
* The JS `Map<number, Variation>` is an association list kept in
  insertion order: `set` replaces in place or appends, `delete` filters,
  matching the iteration-order semantics of `Array.from(map.entries())`.
* `worker.postMessage`, observer callbacks and `updateStatus` are
  modelled as an output log (`Output`); a method returns the new state
  together with the list of outputs it produced, in order.
* The external chess.js SAN conversion (the `for (const uciMove of
  uciMoves)` loop of `processVariation`, which consults full board
  legality) is abstracted as a function parameter
  `conv : String → List String → List String` from the current FEN and
  the UCI move tokens to the converted SAN moves; theorems quantify
  over it.
* The regexes of `handleInfoMessage` are modelled by faithful
  left-to-right scanners over `List Char` (first match wins, one-char
  advance on failure, greedy digit runs), including the quirk that
  `/pv (.+)/` first matches the `pv` inside the `multipv` token.
-/

/- Batteries marks the `Rat` arithmetic operations `@[irreducible]`;
re-allow unfolding so that concrete states evaluate by `decide`. -/
set_option allowUnsafeReducibility true
attribute [local semireducible] Rat.add Rat.mul Rat.inv Rat.div Rat.sub Rat.neg

/-! ## Protocol parser (`handleInfoMessage` regexes, lines 340-401) -/

/-- The character class of the `\d` regex token. -/
def isDigit (c : Char) : Bool := decide ('0' ≤ c) && decide (c ≤ '9')

/-- Value of a (non-empty) digit run, as `parseInt` computes it. -/
def digitsToNat (ds : List Char) : ℕ :=
  ds.foldl (fun n c => 10 * n + (c.toNat - '0'.toNat)) 0

/-- `tok` is a prefix of `l` (used to try a regex literal at one position). -/
def listStartsWith : List Char → List Char → Bool
  | [], _ => true
  | _ :: _, [] => false
  | a :: as, b :: bs => a == b && listStartsWith as bs

/-- Scanner for `/tok(\d+)/` (with `tok` ending in a space): first position
where the literal is followed by at least one digit; captures the maximal
digit run there. -/
def matchTokNum (tok : List Char) : List Char → Option ℕ
  | [] => none
  | c :: rest =>
    if listStartsWith tok (c :: rest) then
      let ds := (List.drop tok.length (c :: rest)).takeWhile isDigit
      if ds.isEmpty then matchTokNum tok rest else some (digitsToNat ds)
    else matchTokNum tok rest

/-- The `-?\d+` part of the score regex. -/
def parseSignedInt (l : List Char) : Option ℤ :=
  match l with
  | '-' :: rest =>
    let ds := rest.takeWhile isDigit
    if ds.isEmpty then none else some (-(digitsToNat ds : ℤ))
  | _ =>
    let ds := l.takeWhile isDigit
    if ds.isEmpty then none else some ((digitsToNat ds : ℤ))

/-- Scanner for `/score (cp|mate) (-?\d+)/`; `true` means the `cp`
alternative matched. -/
def matchScore : List Char → Option (Bool × ℤ)
  | [] => none
  | c :: rest =>
    if listStartsWith ("score ".toList) (c :: rest) then
      let after := List.drop 6 (c :: rest)
      if listStartsWith ("cp ".toList) after then
        match parseSignedInt (List.drop 3 after) with
        | some n => some (true, n)
        | none => matchScore rest
      else if listStartsWith ("mate ".toList) after then
        match parseSignedInt (List.drop 5 after) with
        | some n => some (false, n)
        | none => matchScore rest
      else matchScore rest
    else matchScore rest

/-- Scanner for `/pv (.+)/`: everything after the first occurrence of
`"pv "` (which, on real info lines, is the one inside `multipv`). -/
def matchPv : List Char → Option (List Char)
  | [] => none
  | c :: rest =>
    if listStartsWith ("pv ".toList) (c :: rest) then
      match List.drop 3 (c :: rest) with
      | [] => matchPv rest
      | d :: ds => some (d :: ds)
    else matchPv rest

/-- `AnalysisInfo` (lines 118-128): the partial record filled per line.
`score` holds the already-divided value, as line 355 does
(`numericValue / 100`). -/
structure AnalysisInfo where
  depth : Option ℕ := none
  score : Option ℚ := none
  mate : Option ℤ := none
  nodes : Option ℕ := none
  nps : Option ℕ := none
  time : Option ℕ := none
  multipv : Option ℕ := none
  tbhits : Option ℕ := none
deriving DecidableEq

/-- The pure parsing part of `handleInfoMessage` (lines 340-389). -/
def parseInfoLine (msg : List Char) : AnalysisInfo :=
  let sc := matchScore msg
  { depth := matchTokNum ("depth ".toList) msg
    score := match sc with
      | some (true, n) => some ((n : ℚ) / 100)
      | _ => none
    mate := match sc with
      | some (false, n) => some n
      | _ => none
    nodes := matchTokNum ("nodes ".toList) msg
    nps := matchTokNum ("nps ".toList) msg
    time := matchTokNum ("time ".toList) msg
    multipv := matchTokNum ("multipv ".toList) msg
    tbhits := matchTokNum ("tbhits ".toList) msg }

/-- `Object.keys(info).length > 0` (line 392). -/
def infoNonempty (i : AnalysisInfo) : Bool :=
  i.depth.isSome || i.score.isSome || i.mate.isSome || i.nodes.isSome ||
  i.nps.isSome || i.time.isSome || i.multipv.isSome || i.tbhits.isSome

/-! ## Data model -/

/-- `EngineConfig` (lines 110-116). -/
structure EngineConfig where
  threads : ℤ
  hash : ℤ
  multiPV : ℕ
  depth : ℤ
  skillLevel : ℤ
deriving DecidableEq

/-- The constructor default (lines 156-165); on the server path
(`window` undefined) `threads` is 1. -/
def defaultConfig : EngineConfig :=
  { threads := 1, hash := 128, multiPV := 4, depth := 40, skillLevel := 20 }

/-- `Variation` (lines 130-135). -/
structure Variation where
  multipv : ℕ
  score : ℚ
  mate : Option ℤ
  moves : List String
deriving DecidableEq

/-- `getEffectiveScore` (lines 447-454): mate scores get priority
`±1000000`, keeping the sign of the mate distance. -/
def getEffectiveScore (v : Variation) : ℚ :=
  match v.mate with
  | some m => if 0 < m then 1000000 + (m : ℚ) else -1000000 + (m : ℚ)
  | none => v.score

/-- `EngineStatus.state` (lines 137-140). -/
inductive EngineStateTag
  | not_initialized
  | initializing
  | ready
  | analyzing
  | error
deriving DecidableEq

/-- `EngineStatus` (lines 137-140). -/
structure EngineStatus where
  state : EngineStateTag
  error : Option String := none
deriving DecidableEq

/-- One observable effect: a `worker.postMessage` command, a status
callback, an info callback or an analysis (variations) callback. -/
inductive Output
  | cmd (s : String)
  | status (st : EngineStatus)
  | infoUpdate (i : AnalysisInfo)
  | analysisUpdate (vs : List Variation)
deriving DecidableEq

/-! ## The variation ranking table (`this.variations`) -/

/-- `Map.set` in insertion order: replace in place, else append. -/
def mapSet : List (ℕ × Variation) → ℕ → Variation → List (ℕ × Variation)
  | [], k, v => [(k, v)]
  | (k', v') :: rest, k, v =>
    if k' = k then (k, v) :: rest else (k', v') :: mapSet rest k v

/-- The `reduce` of lines 468-471: keeps the first entry whose effective
score is maximal. -/
def reduceBest : (ℕ × Variation) → List (ℕ × Variation) → ℕ × Variation
  | b, [] => b
  | b, c :: rest =>
    reduceBest (if getEffectiveScore b.2 < getEffectiveScore c.2 then c else b) rest

/-- The filter predicate of line 462: `v.moves[0] === firstMove` (on JS
arrays, `[][0]` is `undefined`, matched by `Option.head?`). -/
def sameFirstMove (v : Variation) (p : ℕ × Variation) : Bool :=
  p.2.moves.head? == v.moves.head?

/-- The deduplication-and-insert block of `processVariation`
(lines 456-485), the spec's `recordCandidate(slot, variation)`:
if some entry shares the candidate's first move, the candidate is kept
only when its effective score strictly exceeds the best duplicate's;
insertion first deletes every duplicate's key, then `set`s the
candidate under its own `multipv` key. -/
def recordCandidate (m : List (ℕ × Variation)) (v : Variation) :
    List (ℕ × Variation) :=
  match m.filter (sameFirstMove v) with
  | [] => mapSet m v.multipv v
  | d :: ds =>
    if getEffectiveScore (reduceBest d ds).2 < getEffectiveScore v then
      mapSet (m.filter (fun p => !(decide (p.1 ∈ (d :: ds).map (·.1)))))
        v.multipv v
    else m

/-- The comparator of lines 490-494 (`scoreB - scoreA`, i.e. descending
effective score); JS `sort` is stable, which insertion sort realises. -/
def varGE (a b : Variation) : Prop :=
  getEffectiveScore b ≤ getEffectiveScore a

instance : DecidableRel varGE := fun a b =>
  inferInstanceAs (Decidable (getEffectiveScore b ≤ getEffectiveScore a))

instance : IsTotal Variation varGE :=
  ⟨fun a b => le_total (getEffectiveScore b) (getEffectiveScore a)⟩

instance : IsTrans Variation varGE :=
  ⟨fun _ _ _ h1 h2 => le_trans h2 h1⟩

/-- Stable descending sort by effective score (lines 489-494). -/
def sortDesc (l : List Variation) : List Variation :=
  List.insertionSort varGE l

/-- The list handed to `onAnalysis` (lines 487-497): the map's values,
sorted descending and `slice(0, 4)`d. -/
def topKView (m : List (ℕ × Variation)) : List Variation :=
  (sortDesc (m.map (·.2))).take 4

/-! ## Session state and methods (`StockfishService`) -/

/-- The mutable fields of `StockfishService` (lines 146-154); the worker
handle is abstracted to presence. -/
structure SFState where
  hasWorker : Bool
  config : EngineConfig
  variations : List (ℕ × Variation)
  currentFen : String
  isAnalyzing : Bool
deriving DecidableEq

/-- Line 238: `position ${fen === 'startpos' ? 'startpos' : 'fen ' + fen}`. -/
def positionCmd (fen : String) : String :=
  "position " ++ (if fen = "startpos" then "startpos" else "fen " ++ fen)

/-- `analyze` (lines 229-240). -/
def analyze (fen : String) (s : SFState) : SFState × List Output :=
  if s.hasWorker = false then (s, [])
  else
    ({ s with variations := [], currentFen := fen, isAnalyzing := true },
     [Output.cmd "stop", Output.cmd "ucinewgame", Output.cmd (positionCmd fen),
      Output.cmd "isready"])

/-- `stop` (lines 242-246). -/
def stop (s : SFState) : SFState × List Output :=
  if s.hasWorker = false then (s, [])
  else ({ s with isAnalyzing := false }, [Output.cmd "stop"])

/-- `dispose` (lines 248-255). -/
def dispose (s : SFState) : SFState × List Output :=
  ({ s with hasWorker := false, variations := [], isAnalyzing := false },
   if s.hasWorker then [Output.cmd "quit"] else [])

/-- A `Partial<EngineConfig>` argument of `updateConfig`. -/
structure PartialEngineConfig where
  threads : Option ℤ := none
  hash : Option ℤ := none
  multiPV : Option ℕ := none
  depth : Option ℤ := none
  skillLevel : Option ℤ := none
deriving DecidableEq

/-- Line 209: `{ ...this._config, ...newConfig }`. -/
def mergeConfig (c : EngineConfig) (p : PartialEngineConfig) : EngineConfig :=
  { threads := p.threads.getD c.threads
    hash := p.hash.getD c.hash
    multiPV := p.multiPV.getD c.multiPV
    depth := p.depth.getD c.depth
    skillLevel := p.skillLevel.getD c.skillLevel }

/-- Line 216 with `getOptionName` (lines 257-266). -/
def setOptionCmd (name val : String) : String :=
  "setoption name " ++ name ++ " value " ++ val

/-- One chunk of the `Object.entries(newConfig)` loop (lines 214-219):
a field present in the partial produces one command iff its value
differs from the old config's. -/
def threadsOptCmds (c : EngineConfig) (p : PartialEngineConfig) : List Output :=
  match p.threads with
  | some v =>
    if v ≠ c.threads then [Output.cmd (setOptionCmd "Threads" (toString v))] else []
  | none => []

def hashOptCmds (c : EngineConfig) (p : PartialEngineConfig) : List Output :=
  match p.hash with
  | some v =>
    if v ≠ c.hash then [Output.cmd (setOptionCmd "Hash" (toString v))] else []
  | none => []

def multiPVOptCmds (c : EngineConfig) (p : PartialEngineConfig) : List Output :=
  match p.multiPV with
  | some v =>
    if v ≠ c.multiPV then [Output.cmd (setOptionCmd "MultiPV" (toString v))] else []
  | none => []

def depthOptCmds (c : EngineConfig) (p : PartialEngineConfig) : List Output :=
  match p.depth with
  | some v =>
    if v ≠ c.depth then [Output.cmd (setOptionCmd "Depth" (toString v))] else []
  | none => []

def skillOptCmds (c : EngineConfig) (p : PartialEngineConfig) : List Output :=
  match p.skillLevel with
  | some v =>
    if v ≠ c.skillLevel then
      [Output.cmd (setOptionCmd "Skill Level" (toString v))]
    else []
  | none => []

/-- The full `Object.entries(newConfig).forEach` loop (lines 214-219),
iterated in field-declaration order. -/
def optionSetCmds (c : EngineConfig) (p : PartialEngineConfig) : List Output :=
  threadsOptCmds c p ++ hashOptCmds c p ++ multiPVOptCmds c p ++
    depthOptCmds c p ++ skillOptCmds c p

/-- `updateConfig` (lines 207-227): merge first, bail without a worker,
otherwise send the diffed option commands, `isready`, and re-`analyze`
the recorded position when a search is running. -/
def updateConfig (p : PartialEngineConfig) (s : SFState) : SFState × List Output :=
  let s1 : SFState := { s with config := mergeConfig s.config p }
  if s.hasWorker = false then (s1, [])
  else
    let base := optionSetCmds s.config p ++ [Output.cmd "isready"]
    if s.isAnalyzing = true then
      let r := analyze s.currentFen s1
      (r.1, base ++ r.2)
    else (s1, base)

/-- `"a b".split(' ')` on char lists (single-char separator, empty
pieces kept). -/
def splitSp : List Char → List (List Char)
  | [] => [[]]
  | c :: rest =>
    if c = ' ' then [] :: splitSp rest
    else
      match splitSp rest with
      | [] => [[c]]
      | h :: t => (c :: h) :: t

/-- `processVariation` (lines 403-500). The slot guard (where JS `!0`
truthiness makes slot 0 invalid, and the `Number`/`isNaN` conversion at
lines 406-407 never fires on a `\d+` capture), the `< 5` guard on the
raw tokens, the SAN conversion (abstracted as `conv`), the `≥ 5` guard
on the converted moves, the dedup/insert (`recordCandidate`), and the
sorted `slice(0, 4)` emission to the `onAnalysis` callback. -/
def processVariation (conv : String → List String → List String)
    (pvString : List Char) (info : AnalysisInfo) (s : SFState) :
    SFState × List Output :=
  match info.multipv with
  | none => (s, [])
  | some mpv =>
    if mpv = 0 then (s, [])
    else if s.config.multiPV < mpv then (s, [])
    else
      let uciMoves := (splitSp pvString).map (fun l => String.mk l)
      if uciMoves.length < 5 then (s, [])
      else
        let sanMoves := conv s.currentFen uciMoves
        if 5 ≤ sanMoves.length ∧ (info.score.isSome ∨ info.mate.isSome) then
          let v : Variation :=
            { multipv := mpv, score := info.score.getD 0, mate := info.mate
              moves := sanMoves }
          let vars := recordCandidate s.variations v
          ({ s with variations := vars },
           [Output.analysisUpdate (topKView vars)])
        else (s, [])

/-- `handleInfoMessage` (lines 340-401): parse, emit the info callback
when any field was extracted, then process the PV when `multipv` is
truthy and a score or mate is present. -/
def handleInfoMessage (conv : String → List String → List String)
    (msg : List Char) (s : SFState) : SFState × List Output :=
  let info := parseInfoLine msg
  let infoOuts := if infoNonempty info then [Output.infoUpdate info] else []
  match matchPv msg with
  | some pvStr =>
    if (info.multipv.isSome ∧ info.multipv ≠ some 0) ∧
        (info.score.isSome ∨ info.mate.isSome) then
      let r := processVariation conv pvStr info s
      (r.1, infoOuts ++ r.2)
    else (s, infoOuts)
  | none => (s, infoOuts)

/-- The `onmessage` handler installed by `setupMessageHandler`
(lines 311-338). -/
def handleMessage (conv : String → List String → List String) (msg : String)
    (s : SFState) : SFState × List Output :=
  if s.hasWorker = false then (s, [])
  else if msg = "uciok" then
    (s, [Output.status { state := .ready },
         Output.cmd (setOptionCmd "MultiPV" (toString s.config.multiPV)),
         Output.cmd (setOptionCmd "Threads" (toString s.config.threads)),
         Output.cmd (setOptionCmd "Hash" (toString s.config.hash)),
         Output.cmd (setOptionCmd "Skill Level" (toString s.config.skillLevel)),
         Output.cmd "isready"])
  else if msg = "readyok" then
    if s.isAnalyzing = true then
      (s, [Output.cmd ("go depth " ++ toString s.config.depth ++ " multipv " ++
             toString s.config.multiPV),
           Output.status { state := .analyzing }])
    else (s, [])
  else if listStartsWith ("info".toList) msg.toList then
    handleInfoMessage conv msg.toList s
  else (s, [])

/-- One step of a session run: an incoming worker message or a UI call. -/
inductive SessionAct
  | recv (msg : String)
  | callAnalyze (fen : String)
  | callStop

def stepAct (conv : String → List String → List String) (s : SFState) :
    SessionAct → SFState × List Output
  | .recv m => handleMessage conv m s
  | .callAnalyze fen => analyze fen s
  | .callStop => stop s

def runSession (conv : String → List String → List String) (s : SFState) :
    List SessionAct → SFState × List Output
  | [] => (s, [])
  | a :: rest =>
    let r := stepAct conv s a
    let r2 := runSession conv r.1 rest
    (r2.1, r.2 ++ r2.2)

/-- The state right after a successful handshake, before any analysis:
worker present, empty table. -/
def initState (cfg : EngineConfig) (fen0 : String) : SFState :=
  { hasWorker := true, config := cfg, variations := [], currentFen := fen0
    isAnalyzing := false }

/-! ## The `ChessEngineService` variant -/

/-- `AnalysisMove` (`ChessEngineService.ts` lines 12-21). -/
structure AnalysisMove where
  move : String
  score : ℚ
  mate : Option ℤ
  depth : ℤ
  nodes : ℤ
  nps : ℤ
  tbhits : ℤ
  pv : List String
deriving DecidableEq

/-- The fields of `ChessEngineService` relevant to `stopAnalysis`. -/
structure CESState where
  worker : Bool
  currentAnalysis : List AnalysisMove
deriving DecidableEq

/-- `ChessEngineService.stopAnalysis` (lines 218-222): sends `stop` and
clears `currentAnalysis`. -/
def stopAnalysis (s : CESState) : CESState × List Output :=
  if s.worker = false then (s, [])
  else ({ s with currentAnalysis := [] }, [Output.cmd "stop"])

/-! ## Concrete states and values used by the claim scenarios -/

/-- A disposed/never-initialised session. -/
def noWorkerState : SFState :=
  { hasWorker := false, config := defaultConfig, variations := []
    currentFen := "", isAnalyzing := false }

/-- A surfaced line, as `updateAnalysis` builds them. -/
def surfacedMove : AnalysisMove :=
  { move := "e4", score := 7/20, mate := none, depth := 20, nodes := 1000
    nps := 100000, tbhits := 0, pv := ["e4", "c5", "Nf3", "d6", "d4"] }

/-- A `ChessEngineService` with one surfaced analysis line. -/
def cesBefore : CESState :=
  { worker := true, currentAnalysis := [surfacedMove] }

/-- The FEN of the spec's scenario (the Sicilian after 1.e4 c5). -/
def sicilianFen : String :=
  "rnbqkbnr/pp1ppppp/8/2p5/4P3/8/PPPP1PPP/RNBQKBNR w KQkq c6 0 2"

/-- A variation announcing mate in 2 (any score field, slot 1). -/
def mateIn2 : Variation :=
  { multipv := 1, score := 0, mate := some 2
    moves := ["Qh5", "g6", "Qxg6", "hxg6", "Be2"] }

/-- A variation announcing mate in 5 (slot 2). -/
def mateIn5 : Variation :=
  { multipv := 2, score := 0, mate := some 5
    moves := ["Nf3", "a6", "Ng5", "b6", "Qh5"] }

/-- A non-mate variation evaluated at +3.5 pawns (slot 3). -/
def plus35 : Variation :=
  { multipv := 3, score := 7/2, mate := none
    moves := ["d4", "d5", "c4", "e6", "Nc3"] }

/-- A table holding exactly the three variations of the C1 scenario. -/
def tableC1 : List (ℕ × Variation) := [(1, mateIn2), (2, mateIn5), (3, plus35)]

/-- The cp 35 line of the scenario (first move e4, slot 1). -/
def varA : Variation :=
  { multipv := 1, score := 7/20, mate := none
    moves := ["e4", "e5", "Nf3", "Nc6", "Bb5"] }

/-- A second candidate sharing varA's first move with an equal
effective score but a different continuation and slot. -/
def varB : Variation :=
  { multipv := 2, score := 7/20, mate := none
    moves := ["e4", "c5", "Nf3", "d6", "d4"] }

/-- The cp 42 line of the scenario (same first move e4, slot 1). -/
def cp42Line : Variation :=
  { multipv := 1, score := 21/50, mate := none
    moves := ["e4", "e5", "Nf3", "Nc6", "Bc4"] }

/-- The integer denoted by an optional sign and a digit run, as
`parseInt` reads the capture of `-?\d+`. -/
def signedVal (sgn ds : List Char) : ℤ :=
  if sgn = ['-'] then -(digitsToNat ds : ℤ) else (digitsToNat ds : ℤ)

/-- A SAN conversion in which every UCI token converts (a position
where all listed moves are legal). -/
def convId : String → List String → List String := fun _ l => l

/-- The info fields of a parsed line carrying `multipv 1` and
`score cp 35`. -/
def infoCp35 : AnalysisInfo := { score := some (7/20), multipv := some 1 }

/-- The `Variation` literal of lines 439-444, built from a parsed line's
slot, score, mate and converted moves. -/
def candidateOf (conv : String → List String → List String) (s : SFState)
    (pv : List Char) (info : AnalysisInfo) (mpv : ℕ) : Variation :=
  { multipv := mpv, score := info.score.getD 0, mate := info.mate
    moves := conv s.currentFen ((splitSp pv).map (fun l => String.mk l)) }

/-! ## Classifying option-set commands -/

/-- Recognises an option-set command for the engine option `name`
(any value): a `postMessage` whose text starts with
`setoption name <name> value`. -/
def isOptFor (name : String) (o : Output) : Bool :=
  match o with
  | Output.cmd c =>
    listStartsWith ("setoption name " ++ name ++ " value").toList c.toList
  | _ => false

/-- The number of option-set commands the claim expects for one field:
one if the partial sets it to a different value, none otherwise. -/
def countFor {α : Type} [DecidableEq α] (pf : Option α) (old : α) : ℕ :=
  match pf with
  | some v => if v ≠ old then 1 else 0
  | none => 0

/-- The structural invariant on a session's ranking table under a fixed
configuration `cfg`: the table keys are distinct slot numbers within
`1..cfg.multiPV` and no two entries share a first move. -/
def TableInv (cfg : EngineConfig) (s : SFState) : Prop :=
  s.config = cfg ∧
  (s.variations.map (·.1)).Nodup ∧
  (∀ p ∈ s.variations, 1 ≤ p.1 ∧ p.1 ≤ cfg.multiPV) ∧
  (s.variations.map (fun p => p.2.moves.head?)).Nodup

/-- An output respects the claim's bound: any emitted variations list
has at most `cfg.multiPV` entries, all with distinct first moves. -/
def GoodEmit (cfg : EngineConfig) (o : Output) : Prop :=
  ∀ vs, o = Output.analysisUpdate vs →
    vs.length ≤ cfg.multiPV ∧ (vs.map (fun v => v.moves.head?)).Nodup

/-- The single variations list emitted in the witness run below. -/
def c3Vars : List Variation :=
  [{ multipv := 1, score := 7/20, mate := none
     moves := ["1", "score", "cp", "35", "pv", "e2e4"] }]

/-! ## The `loadStockfish` promise and `init` (lines 172-191, 268-309) -/

/-- The asynchronous events `loadStockfish` (lines 268-309) can
observe: a worker message, the 10-second init timer firing, a worker
error. -/
inductive LoadEvent
  | lmsg (m : String)
  | timerFire
  | workerErr (e : String)
deriving DecidableEq

/-- How the `loadStockfish` promise settled. -/
inductive LoadResult
  | resolved
  | rejected (err : String)
deriving DecidableEq

/-- The closure state of `loadStockfish`: the `initialized` flag, whether
the init timer is still armed (the `{ once: true }` listener at
lines 300-302 clears it on the FIRST message of any kind), whether the
temporary `messageHandler` is still attached, and how the promise
settled (a promise settles at most once). -/
structure LoadState where
  initialized : Bool
  timerArmed : Bool
  handlerOn : Bool
  result : Option LoadResult
deriving DecidableEq

/-- Promise settlement: the first resolution/rejection wins. -/
def settle (r : Option LoadResult) (new : LoadResult) : Option LoadResult :=
  match r with
  | some r0 => some r0
  | none => some new

/-- One event of the `loadStockfish` promise executor (lines 268-309). -/
def loadStep (s : LoadState) (e : LoadEvent) : LoadState :=
  match e with
  | .lmsg m =>
    let s1 : LoadState := { s with timerArmed := false }
    if s1.handlerOn = true ∧ m = "uciok" ∧ s1.initialized = false then
      { s1 with initialized := true, handlerOn := false
                result := settle s1.result .resolved }
    else s1
  | .timerFire =>
    if s.timerArmed = true ∧ s.initialized = false then
      { s with timerArmed := false, handlerOn := false
               result := settle s.result
                 (.rejected "Stockfish initialization timed out") }
    else s
  | .workerErr e =>
    { s with handlerOn := false
             result := settle s.result
               (.rejected ("Failed to load Stockfish worker: " ++ e)) }

/-- The state right after `loadStockfish` attaches its listeners. -/
def initLoadState : LoadState :=
  { initialized := false, timerArmed := true, handlerOn := true
    result := none }

def runLoad (evs : List LoadEvent) : LoadState :=
  evs.foldl loadStep initLoadState

/-- The status events `init` (lines 172-191) produces for a
`loadStockfish` outcome: `initializing` first; `error` exactly when the
promise rejected (the catch block), the follow-up `uci` send when it
resolved, nothing while it is still pending. -/
def initRun (evs : List LoadEvent) : List Output :=
  Output.status { state := .initializing } ::
    (match (runLoad evs).result with
     | some (.rejected e) => [Output.status { state := .error, error := some e }]
     | some .resolved => [Output.cmd "uci"]
     | none => [])

def isErrorStatus (o : Output) : Bool :=
  match o with
  | Output.status st => st.state == EngineStateTag.error
  | _ => false

/-- The state after the armed timer fires with nothing else seen. -/
def timeoutState : LoadState :=
  { initialized := false, timerArmed := false, handlerOn := false
    result := some (.rejected "Stockfish initialization timed out") }

/-! ## Claim C10 -/

/-- C10: with no engine worker, `analyze` and `stop` return without
sending anything and leave every session field unchanged, while
`updateConfig` also sends nothing but does replace the stored config
with the merged snapshot. -/
theorem c10_no_worker_frame (s : SFState) (p : PartialEngineConfig)
    (fen : String) (h : s.hasWorker = false) :
    analyze fen s = (s, []) ∧ stop s = (s, []) ∧
    updateConfig p s = ({ s with config := mergeConfig s.config p }, []) := by
  refine ⟨?_, ?_, ?_⟩ <;> simp [analyze, stop, updateConfig, h]

/-- Witness for C10 at a concrete worker-less state and partial config. -/
theorem c10_no_worker_frame_witness :
    analyze "8/8/8/8/8/8/8/K6k w - - 0 1" noWorkerState = (noWorkerState, []) ∧
    stop noWorkerState = (noWorkerState, []) ∧
    updateConfig { threads := some 4 } noWorkerState =
      ({ noWorkerState with
          config := mergeConfig noWorkerState.config { threads := some 4 } }, []) :=
  c10_no_worker_frame noWorkerState { threads := some 4 }
    "8/8/8/8/8/8/8/K6k w - - 0 1" rfl

/-! ## Claim C8 -/

/-- C8 counterexample: the claim says stop never clears the
already-surfaced variations, but `ChessEngineService.stopAnalysis`
(cited by the claim) resets its `currentAnalysis` list to empty. -/
theorem c8_counterexample :
    cesBefore.currentAnalysis ≠ [] ∧
    (stopAnalysis cesBefore).1.currentAnalysis = [] := by
  constructor
  · simp [cesBefore]
  · rfl

/-- C8 amended: `StockfishService.stop` is idempotent — called twice
from any worker-holding state it leaves the session Ready
(worker present, not analyzing) both times, sends exactly `stop` each
time, emits no variations update (so the last-surfaced list is
identical after both calls), and never touches the variations table;
the `ChessEngineService` variant's `stopAnalysis` likewise emits no
variations update, but it clears its internal `currentAnalysis` list. -/
theorem c8_stop_idempotent_amended (s : SFState) (c : CESState)
    (hw : s.hasWorker = true) (hcw : c.worker = true) :
    (stop s).1.hasWorker = true ∧ (stop s).1.isAnalyzing = false ∧
    (stop (stop s).1).1.hasWorker = true ∧
    (stop (stop s).1).1.isAnalyzing = false ∧
    (stop s).1.variations = s.variations ∧
    (stop (stop s).1).1.variations = s.variations ∧
    (stop s).2 = [Output.cmd "stop"] ∧
    (stop (stop s).1).2 = [Output.cmd "stop"] ∧
    (stopAnalysis c).1.currentAnalysis = [] ∧
    (stopAnalysis c).2 = [Output.cmd "stop"] := by
  simp [stop, stopAnalysis, hw, hcw]

/-- Witness for C8's amended theorem at a concrete analyzing state. -/
theorem c8_stop_idempotent_amended_witness :
    (stop (initState defaultConfig "startpos")).1.hasWorker = true ∧
    (stop (initState defaultConfig "startpos")).1.isAnalyzing = false ∧
    (stop (stop (initState defaultConfig "startpos")).1).1.hasWorker = true ∧
    (stop (stop (initState defaultConfig "startpos")).1).1.isAnalyzing = false ∧
    (stop (initState defaultConfig "startpos")).1.variations =
      (initState defaultConfig "startpos").variations ∧
    (stop (stop (initState defaultConfig "startpos")).1).1.variations =
      (initState defaultConfig "startpos").variations ∧
    (stop (initState defaultConfig "startpos")).2 = [Output.cmd "stop"] ∧
    (stop (stop (initState defaultConfig "startpos")).1).2 = [Output.cmd "stop"] ∧
    (stopAnalysis cesBefore).1.currentAnalysis = [] ∧
    (stopAnalysis cesBefore).2 = [Output.cmd "stop"] :=
  c8_stop_idempotent_amended (initState defaultConfig "startpos") cesBefore rfl rfl

/-! ## Claim C6 -/

theorem str_append_assoc (a b c : String) : a ++ b ++ c = a ++ (b ++ c) := by
  apply String.ext
  simp [String.data_append, List.append_assoc]

/-- C6: from any worker-holding state, `analyze fen` clears the
variation table before any observable output, and the combined command
trace of `analyze` followed by the engine's `readyok` acknowledgement
is exactly stop, ucinewgame, `position fen <fen>`, isready, then
`go depth <configured depth> multipv <configured multiPV>` — so the
reposition precedes the go. -/
theorem c6_analyze_ordering (conv : String → List String → List String)
    (s : SFState) (fen : String) (hw : s.hasWorker = true)
    (hf : fen ≠ "startpos") :
    (analyze fen s).1.variations = [] ∧
    (analyze fen s).2 ++ (handleMessage conv "readyok" (analyze fen s).1).2 =
      [Output.cmd "stop", Output.cmd "ucinewgame",
       Output.cmd ("position fen " ++ fen), Output.cmd "isready",
       Output.cmd ("go depth " ++ toString s.config.depth ++ " multipv " ++
         toString s.config.multiPV),
       Output.status { state := .analyzing }] := by
  simp [analyze, handleMessage, positionCmd, hw, hf, ← str_append_assoc]

/-- Witness for C6 at the spec's concrete scenario. -/
theorem c6_analyze_ordering_witness :
    (analyze sicilianFen (initState defaultConfig "startpos")).1.variations = [] ∧
    (analyze sicilianFen (initState defaultConfig "startpos")).2 ++
        (handleMessage (fun _ l => l) "readyok"
          (analyze sicilianFen (initState defaultConfig "startpos")).1).2 =
      [Output.cmd "stop", Output.cmd "ucinewgame",
       Output.cmd ("position fen " ++ sicilianFen), Output.cmd "isready",
       Output.cmd ("go depth " ++
         toString (initState defaultConfig "startpos").config.depth ++
         " multipv " ++
         toString (initState defaultConfig "startpos").config.multiPV),
       Output.status { state := .analyzing }] :=
  c6_analyze_ordering (fun _ l => l) (initState defaultConfig "startpos")
    sicilianFen rfl (by decide)

/-! ## Helper lemmas about the ranking table -/

theorem sortDesc_perm (l : List Variation) : (sortDesc l).Perm l :=
  List.perm_insertionSort varGE l

theorem sortDesc_sorted (l : List Variation) : List.Sorted varGE (sortDesc l) :=
  List.sorted_insertionSort varGE l

/-- A `varGE`-sorted permutation of three variations with strictly
decreasing effective scores is exactly that descending enumeration. -/
theorem sorted_perm_three (a b c : Variation) (l : List Variation)
    (hab : getEffectiveScore b < getEffectiveScore a)
    (hbc : getEffectiveScore c < getEffectiveScore b)
    (hp : l.Perm [a, b, c]) (hs : List.Sorted varGE l) :
    l = [a, b, c] := by
  have hba : b ≠ a := fun h => absurd hab (by rw [h]; exact lt_irrefl _)
  have hca : c ≠ a := fun h => absurd (hbc.trans hab) (by rw [h]; exact lt_irrefl _)
  have hcb : c ≠ b := fun h => absurd hbc (by rw [h]; exact lt_irrefl _)
  have hlen : l.length = 3 := by simpa using hp.length_eq
  obtain ⟨x, y, z, rfl⟩ := List.length_eq_three.mp hlen
  rw [List.sorted_cons] at hs
  obtain ⟨hx, hs2⟩ := hs
  rw [List.sorted_cons] at hs2
  obtain ⟨hy, -⟩ := hs2
  have hxy : getEffectiveScore y ≤ getEffectiveScore x := hx y (by simp)
  have hxz : getEffectiveScore z ≤ getEffectiveScore x := hx z (by simp)
  have hyz : getEffectiveScore z ≤ getEffectiveScore y := hy z (by simp)
  have hax : x = a := by
    have hmx : x = a ∨ x = b ∨ x = c := by
      have := hp.subset (show x ∈ [x, y, z] by simp)
      simpa using this
    have hma : a = x ∨ a = y ∨ a = z := by
      have := hp.symm.subset (show a ∈ [a, b, c] by simp)
      simpa using this
    rcases hmx with h | h | h
    · exact h
    · exfalso
      rcases hma with h' | h' | h'
      · exact hba (h' ▸ h).symm
      · exact absurd (h ▸ h' ▸ hxy) (not_le.mpr hab)
      · exact absurd (h ▸ h' ▸ hxz) (not_le.mpr hab)
    · exfalso
      rcases hma with h' | h' | h'
      · exact hca (h' ▸ h).symm
      · exact absurd (h ▸ h' ▸ hxy) (not_le.mpr (hbc.trans hab))
      · exact absurd (h ▸ h' ▸ hxz) (not_le.mpr (hbc.trans hab))
  subst hax
  have hp2 : [y, z].Perm [b, c] := hp.cons_inv
  have hby : y = b := by
    have hmy : y = b ∨ y = c := by
      have := hp2.subset (show y ∈ [y, z] by simp)
      simpa using this
    have hmb : b = y ∨ b = z := by
      have := hp2.symm.subset (show b ∈ [b, c] by simp)
      simpa using this
    rcases hmy with h | h
    · exact h
    · exfalso
      rcases hmb with h' | h'
      · exact hcb (h' ▸ h).symm
      · exact absurd (h ▸ h' ▸ hyz) (not_le.mpr hbc)
  subst hby
  have hp3 : [z].Perm [c] := hp2.cons_inv
  have : z = c := by
    have := hp3.subset (show z ∈ [z] by simp)
    simpa using this
  rw [this]

theorem reduceBest_max (b : ℕ × Variation) (ds : List (ℕ × Variation)) :
    getEffectiveScore b.2 ≤ getEffectiveScore (reduceBest b ds).2 ∧
    ∀ q ∈ ds, getEffectiveScore q.2 ≤ getEffectiveScore (reduceBest b ds).2 := by
  induction ds generalizing b with
  | nil => exact ⟨le_refl _, by simp⟩
  | cons c rest ih =>
    simp only [reduceBest]
    by_cases hbc : getEffectiveScore b.2 < getEffectiveScore c.2
    · rw [if_pos hbc]
      refine ⟨le_trans (le_of_lt hbc) (ih c).1, ?_⟩
      intro q hq
      rcases List.mem_cons.mp hq with rfl | hq'
      · exact (ih q).1
      · exact (ih c).2 q hq'
    · rw [if_neg hbc]
      refine ⟨(ih b).1, ?_⟩
      intro q hq
      rcases List.mem_cons.mp hq with rfl | hq'
      · exact le_trans (le_of_not_lt hbc) (ih b).1
      · exact (ih b).2 q hq'

theorem reduceBest_mem (b : ℕ × Variation) (ds : List (ℕ × Variation)) :
    reduceBest b ds ∈ b :: ds := by
  induction ds generalizing b with
  | nil => simp [reduceBest]
  | cons c rest ih =>
    simp only [reduceBest]
    by_cases hbc : getEffectiveScore b.2 < getEffectiveScore c.2
    · rw [if_pos hbc]
      rcases List.mem_cons.mp (ih c) with h | h
      · rw [h]; simp
      · simp [h]
    · rw [if_neg hbc]
      rcases List.mem_cons.mp (ih b) with h | h
      · rw [h]; simp
      · simp [h]

/-- If some same-first-move entry is at least as strong as the
candidate, `recordCandidate` leaves the table unchanged. -/
theorem recordCandidate_discard (m : List (ℕ × Variation)) (v : Variation)
    (p : ℕ × Variation) (hpm : p ∈ m) (hpf : sameFirstMove v p = true)
    (hple : getEffectiveScore v ≤ getEffectiveScore p.2) :
    recordCandidate m v = m := by
  have hpd : p ∈ m.filter (sameFirstMove v) := List.mem_filter.mpr ⟨hpm, hpf⟩
  rcases hd : m.filter (sameFirstMove v) with _ | ⟨d, ds⟩
  · rw [hd] at hpd; simp at hpd
  · rw [hd] at hpd
    simp only [recordCandidate, hd]
    rw [if_neg]
    rcases List.mem_cons.mp hpd with rfl | hpd'
    · exact not_lt.mpr (le_trans hple (reduceBest_max p ds).1)
    · exact not_lt.mpr (le_trans hple ((reduceBest_max d ds).2 p hpd'))

/-- If every same-first-move entry is strictly weaker than the
candidate, `recordCandidate` evicts them all and `set`s the candidate
(the key-based deletion coincides with first-move-based deletion when
the table's keys are distinct, which JS `Map` guarantees). -/
theorem recordCandidate_insert (m : List (ℕ × Variation)) (v : Variation)
    (hk : (m.map (·.1)).Nodup)
    (hlt : ∀ p ∈ m, sameFirstMove v p = true →
      getEffectiveScore p.2 < getEffectiveScore v) :
    recordCandidate m v =
      mapSet (m.filter (fun p => !(sameFirstMove v p))) v.multipv v := by
  rcases hd : m.filter (sameFirstMove v) with _ | ⟨d, ds⟩
  · have hall : ∀ p ∈ m, ¬ sameFirstMove v p = true :=
      List.filter_eq_nil_iff.mp hd
    have hfe : m.filter (fun p => !(sameFirstMove v p)) = m :=
      List.filter_eq_self.mpr (fun p hp => by
        rw [Bool.not_eq_true']
        exact Bool.eq_false_iff.mpr (hall p hp))
    simp only [recordCandidate, hd, hfe]
  · have hmemd : ∀ q ∈ d :: ds, q ∈ m ∧ sameFirstMove v q = true := by
      intro q hq
      have : q ∈ m.filter (sameFirstMove v) := by rw [hd]; exact hq
      exact List.mem_filter.mp this
    have hcond : getEffectiveScore (reduceBest d ds).2 < getEffectiveScore v := by
      obtain ⟨hqm, hqf⟩ := hmemd _ (reduceBest_mem d ds)
      exact hlt _ hqm hqf
    simp only [recordCandidate, hd]
    rw [if_pos hcond]
    congr 1
    apply List.filter_congr
    intro p hp
    have : decide (p.1 ∈ (d :: ds).map (·.1)) = sameFirstMove v p := by
      by_cases hsf : sameFirstMove v p = true
      · rw [hsf, decide_eq_true_eq]
        have hpd : p ∈ d :: ds := by
          have : p ∈ m.filter (sameFirstMove v) := List.mem_filter.mpr ⟨hp, hsf⟩
          rw [hd] at this; exact this
        exact List.mem_map.mpr ⟨p, hpd, rfl⟩
      · rw [Bool.eq_false_iff.mpr hsf, decide_eq_false_iff_not]
        intro hmem
        obtain ⟨q, hq, hqk⟩ := List.mem_map.mp hmem
        obtain ⟨hqm, hqf⟩ := hmemd q hq
        have : q = p := List.inj_on_of_nodup_map hk hqm hp hqk
        exact hsf (this ▸ hqf)
    rw [this]

/-! ## Claim C1 -/

/-- C1 counterexample: with exactly the variations mate +2, mate +5 and
non-mate +3.5 in the table, the sorted top-K view emitted to observers
is [mate +5, mate +2, +3.5] and not the claimed [mate +2, mate +5,
+3.5]: `getEffectiveScore` is `1000000 + mate`, so among positive mates
the larger (slower) mate distance ranks first. -/
theorem c1_counterexample :
    topKView tableC1 = [mateIn5, mateIn2, plus35] ∧
    topKView tableC1 ≠ [mateIn2, mateIn5, plus35] := by decide

/-- C1 amended: a positive mate distance still outranks any non-mate
score of ordinary magnitude, but among two positive mate distances the
larger one ranks higher (the code computes `1000000 + mate`); for every
table state containing exactly a variation with mate +2, a variation
with mate +5 and a variation with non-mate score +3.5, the sorted
top-K view emitted to observers is [mate +5, mate +2, +3.5]. -/
theorem c1_mate_ordering_amended (v2 v5 v35 : Variation)
    (m : List (ℕ × Variation))
    (h2 : v2.mate = some 2) (h5 : v5.mate = some 5)
    (h35m : v35.mate = none) (h35s : v35.score = 7/2)
    (hp : (m.map (·.2)).Perm [v5, v2, v35]) :
    topKView m = [v5, v2, v35] := by
  have e2 : getEffectiveScore v2 = 1000002 := by
    simp only [getEffectiveScore, h2]
    norm_num
  have e5 : getEffectiveScore v5 = 1000005 := by
    simp only [getEffectiveScore, h5]
    norm_num
  have e35 : getEffectiveScore v35 = 7/2 := by
    simp only [getEffectiveScore, h35m, h35s]
  have hperm := (sortDesc_perm (m.map (·.2))).trans hp
  have hsort := sortDesc_sorted (m.map (·.2))
  have h3 : sortDesc (m.map (·.2)) = [v5, v2, v35] :=
    sorted_perm_three v5 v2 v35 _ (by rw [e2, e5]; norm_num)
      (by rw [e35, e2]; norm_num) hperm hsort
  unfold topKView
  rw [h3]
  rfl

/-- Witness for C1's amended theorem at the concrete scenario table. -/
theorem c1_mate_ordering_amended_witness :
    topKView tableC1 = [mateIn5, mateIn2, plus35] :=
  c1_mate_ordering_amended mateIn2 mateIn5 plus35 tableC1 rfl rfl rfl rfl
    (by decide)

/-! ## Claim C2 -/

/-- C2 counterexample: with the table holding only varA (first move e4,
effective score 0.35), no entry shares varB's first move with a
strictly higher effective strength (varB also scores 0.35), yet the
candidate varB is discarded, not inserted: the code keeps a candidate
only when it is strictly stronger than the best duplicate. -/
theorem c2_counterexample :
    (¬ ∃ p ∈ [(1, varA)], sameFirstMove varB p = true ∧
        getEffectiveScore varB < getEffectiveScore p.2) ∧
    varA ≠ varB ∧
    recordCandidate [(1, varA)] varB = [(1, varA)] := by decide

/-- C2 amended: a candidate is discarded as soon as some entry with the
same first move has a higher **or equal** effective strength; it is
inserted (evicting every same-first-move entry, then `set` under its
slot) exactly when it is strictly stronger than all of them.  In
particular the scenario holds: recording first move e4 at cp 35 and
then e4 at cp 42 leaves only the cp 42 entry. -/
theorem c2_record_candidate_amended (m : List (ℕ × Variation)) (v : Variation)
    (hk : (m.map (·.1)).Nodup) :
    ((∃ p ∈ m, sameFirstMove v p = true ∧
        getEffectiveScore v ≤ getEffectiveScore p.2) →
      recordCandidate m v = m) ∧
    ((∀ p ∈ m, sameFirstMove v p = true →
        getEffectiveScore p.2 < getEffectiveScore v) →
      recordCandidate m v =
        mapSet (m.filter (fun p => !(sameFirstMove v p))) v.multipv v) ∧
    recordCandidate (recordCandidate [] varA) cp42Line = [(1, cp42Line)] := by
  refine ⟨?_, ?_, by decide⟩
  · rintro ⟨p, hpm, hpf, hple⟩
    exact recordCandidate_discard m v p hpm hpf hple
  · intro h
    exact recordCandidate_insert m v hk h

/-- Witness for C2's amended theorem at the scenario's table. -/
theorem c2_record_candidate_amended_witness :
    ((∃ p ∈ [(1, varA)], sameFirstMove cp42Line p = true ∧
        getEffectiveScore cp42Line ≤ getEffectiveScore p.2) →
      recordCandidate [(1, varA)] cp42Line = [(1, varA)]) ∧
    ((∀ p ∈ [(1, varA)], sameFirstMove cp42Line p = true →
        getEffectiveScore p.2 < getEffectiveScore cp42Line) →
      recordCandidate [(1, varA)] cp42Line =
        mapSet (([(1, varA)] : List (ℕ × Variation)).filter
          (fun p => !(sameFirstMove cp42Line p))) cp42Line.multipv cp42Line) ∧
    recordCandidate (recordCandidate [] varA) cp42Line = [(1, cp42Line)] :=
  c2_record_candidate_amended [(1, varA)] cp42Line (by decide)

/-! ## Claim C4 -/

theorem scoreTok_eq : "score ".toList = ['s', 'c', 'o', 'r', 'e', ' '] := rfl

theorem scoreCpTok_eq :
    "score cp ".toList = ['s', 'c', 'o', 'r', 'e', ' ', 'c', 'p', ' '] := rfl

theorem scoreMateTok_eq :
    "score mate ".toList =
      ['s', 'c', 'o', 'r', 'e', ' ', 'm', 'a', 't', 'e', ' '] := rfl

/-- The scanner passes over a region with no occurrence of the literal. -/
theorem matchScore_skip (pre rest : List Char)
    (h : ∀ i, i < pre.length →
      listStartsWith ("score ".toList) ((pre ++ rest).drop i) = false) :
    matchScore (pre ++ rest) = matchScore rest := by
  induction pre with
  | nil => simp
  | cons c pre ih =>
    have h0 : listStartsWith ("score ".toList) (c :: (pre ++ rest)) = false := by
      have := h 0 (by simp)
      simpa using this
    rw [List.cons_append]
    simp only [matchScore, h0]
    simp only [Bool.false_eq_true, if_false]
    exact ih (fun i hi => by
      have := h (i + 1) (by simpa using Nat.succ_lt_succ hi)
      simpa using this)

/-- Greedy digit capture: a digit run followed by a non-digit boundary. -/
theorem takeWhile_digits (ds tail : List Char)
    (hds : ∀ c ∈ ds, isDigit c = true)
    (ht : ∀ c, tail.head? = some c → isDigit c = false) :
    (ds ++ tail).takeWhile isDigit = ds := by
  induction ds with
  | nil =>
    simp only [List.nil_append]
    cases tail with
    | nil => rfl
    | cons t ts => simp [List.takeWhile_cons, ht t rfl]
  | cons d ds' ih =>
    simp only [List.cons_append, List.takeWhile_cons, hds d (by simp), if_true]
    rw [ih (fun c hc => hds c (List.mem_cons_of_mem d hc))]

theorem parseSignedInt_val (sgn ds tail : List Char)
    (hsgn : sgn = [] ∨ sgn = ['-']) (hne : ds ≠ [])
    (hds : ∀ c ∈ ds, isDigit c = true)
    (ht : ∀ c, tail.head? = some c → isDigit c = false) :
    parseSignedInt (sgn ++ (ds ++ tail)) = some (signedVal sgn ds) := by
  rcases hsgn with rfl | rfl
  · rcases ds with _ | ⟨d, ds'⟩
    · exact absurd rfl hne
    · have hd := hds d (by simp)
      have hdne : d ≠ '-' := by
        intro h
        rw [h] at hd
        exact absurd hd (by decide)
      simp only [List.nil_append, List.cons_append]
      rw [parseSignedInt.eq_def]
      split
      · next rest heq =>
        injection heq with h1 h2
        exact absurd h1 hdne
      · next hne2 =>
        have htw : (d :: (ds' ++ tail)).takeWhile isDigit = d :: ds' := by
          rw [show d :: (ds' ++ tail) = (d :: ds') ++ tail from rfl]
          exact takeWhile_digits (d :: ds') tail hds ht
        simp only [htw, List.isEmpty_cons, signedVal]
        simp
  · simp only [List.cons_append, List.nil_append, parseSignedInt]
    rw [takeWhile_digits ds tail hds ht]
    simp only [signedVal, if_pos rfl]
    simp [List.isEmpty_eq_true, hne]

/-- Evaluating the score scanner at the match position itself. -/
theorem matchScore_here (sgn ds tail : List Char)
    (hsgn : sgn = [] ∨ sgn = ['-']) (hne : ds ≠ [])
    (hds : ∀ c ∈ ds, isDigit c = true)
    (ht : ∀ c, tail.head? = some c → isDigit c = false) :
    matchScore ("score cp ".toList ++ (sgn ++ (ds ++ tail))) =
      some (true, signedVal sgn ds) ∧
    matchScore ("score mate ".toList ++ (sgn ++ (ds ++ tail))) =
      some (false, signedVal sgn ds) := by
  have hv := parseSignedInt_val sgn ds tail hsgn hne hds ht
  constructor
  · have h : matchScore ("score cp ".toList ++ (sgn ++ (ds ++ tail))) =
        (match parseSignedInt (sgn ++ (ds ++ tail)) with
         | some n => some (true, n)
         | none => matchScore ("core cp ".toList ++ (sgn ++ (ds ++ tail)))) := rfl
    rw [h, hv]
  · have h : matchScore ("score mate ".toList ++ (sgn ++ (ds ++ tail))) =
        (match parseSignedInt (sgn ++ (ds ++ tail)) with
         | some n => some (false, n)
         | none => matchScore ("core mate ".toList ++ (sgn ++ (ds ++ tail)))) := rfl
    rw [h, hv]

/-- C4 counterexample: on the valid info line
`info depth 10 score cp 35 pv e2e4`, the parser does not yield
`centipawnScore == 35`: it divides by 100 at the parsing step
(line 355, `numericValue / 100`) and yields 0.35. -/
theorem c4_counterexample :
    matchScore ("info depth 10 score cp 35 pv e2e4".toList) = some (true, 35) ∧
    (parseInfoLine ("info depth 10 score cp 35 pv e2e4".toList)).score =
      some (7/20) ∧
    (parseInfoLine ("info depth 10 score cp 35 pv e2e4".toList)).score ≠
      some ((35 : ℚ)) ∧
    (parseInfoLine ("info depth 10 score cp 35 pv e2e4".toList)).mate = none := by
  decide

/-- C4 amended: for every info line whose first `score` occurrence is a
`score cp N` token (N a possibly signed integer), parsing yields
`centipawnScore == N / 100` — the division by 100 happens at the
parsing step — and no `mateInN`; for `score mate N` it yields
`mateInN == N` (undivided) and no `centipawnScore`. -/
theorem c4_parse_score_amended :
    (∀ pre sgn ds tail : List Char,
      (∀ i, i < pre.length →
        listStartsWith ("score ".toList)
          ((pre ++ ("score cp ".toList ++ (sgn ++ (ds ++ tail)))).drop i) =
            false) →
      (sgn = [] ∨ sgn = ['-']) → ds ≠ [] → (∀ c ∈ ds, isDigit c = true) →
      (∀ c, tail.head? = some c → isDigit c = false) →
      (parseInfoLine
          (pre ++ ("score cp ".toList ++ (sgn ++ (ds ++ tail))))).score =
        some ((signedVal sgn ds : ℚ) / 100) ∧
      (parseInfoLine
          (pre ++ ("score cp ".toList ++ (sgn ++ (ds ++ tail))))).mate =
        none) ∧
    (∀ pre sgn ds tail : List Char,
      (∀ i, i < pre.length →
        listStartsWith ("score ".toList)
          ((pre ++ ("score mate ".toList ++ (sgn ++ (ds ++ tail)))).drop i) =
            false) →
      (sgn = [] ∨ sgn = ['-']) → ds ≠ [] → (∀ c ∈ ds, isDigit c = true) →
      (∀ c, tail.head? = some c → isDigit c = false) →
      (parseInfoLine
          (pre ++ ("score mate ".toList ++ (sgn ++ (ds ++ tail))))).mate =
        some (signedVal sgn ds) ∧
      (parseInfoLine
          (pre ++ ("score mate ".toList ++ (sgn ++ (ds ++ tail))))).score =
        none) := by
  constructor
  · intro pre sgn ds tail hpre hsgn hne hds ht
    have hms : matchScore
        (pre ++ ("score cp ".toList ++ (sgn ++ (ds ++ tail)))) =
        some (true, signedVal sgn ds) := by
      rw [matchScore_skip pre _ hpre]
      exact (matchScore_here sgn ds tail hsgn hne hds ht).1
    constructor
    · simp only [parseInfoLine]
      rw [hms]
    · simp only [parseInfoLine]
      rw [hms]
  · intro pre sgn ds tail hpre hsgn hne hds ht
    have hms : matchScore
        (pre ++ ("score mate ".toList ++ (sgn ++ (ds ++ tail)))) =
        some (false, signedVal sgn ds) := by
      rw [matchScore_skip pre _ hpre]
      exact (matchScore_here sgn ds tail hsgn hne hds ht).2
    constructor
    · simp only [parseInfoLine]
      rw [hms]
    · simp only [parseInfoLine]
      rw [hms]

/-- Witness for C4's amended theorem: a cp line with value 35 and a
mate line with value -3, embedded in realistic info lines. -/
theorem c4_parse_score_amended_witness :
    ((parseInfoLine ("info depth 8 ".toList ++
        ("score cp ".toList ++ ([] ++ (['3', '5'] ++ " pv e2e4".toList))))).score =
      some ((signedVal [] ['3', '5'] : ℚ) / 100) ∧
    (parseInfoLine ("info depth 8 ".toList ++
        ("score cp ".toList ++ ([] ++ (['3', '5'] ++ " pv e2e4".toList))))).mate =
      none) ∧
    ((parseInfoLine ("info depth 8 ".toList ++
        ("score mate ".toList ++
          (['-'] ++ (['3'] ++ " pv e2e4".toList))))).mate =
      some (signedVal ['-'] ['3']) ∧
    (parseInfoLine ("info depth 8 ".toList ++
        ("score mate ".toList ++
          (['-'] ++ (['3'] ++ " pv e2e4".toList))))).score =
      none) :=
  ⟨c4_parse_score_amended.1 ("info depth 8 ".toList) [] ['3', '5']
      (" pv e2e4".toList) (by decide) (Or.inl rfl) (by decide) (by decide)
      (by decide),
    c4_parse_score_amended.2 ("info depth 8 ".toList) ['-'] ['3']
      (" pv e2e4".toList) (by decide) (Or.inr rfl) (by decide) (by decide)
      (by decide)⟩

/-! ## Claim C5 -/

/-- C5 counterexample: a parsed line yielding a complete one-move
principal variation (`pv e2e4`) together with a score records nothing:
`processVariation` returns with no table change and no emission, because
of the `uciMoves.length < 5` guard at line 411. -/
theorem c5_counterexample :
    ((splitSp ("e2e4".toList)).map (fun l => String.mk l)) = ["e2e4"] ∧
    infoCp35.score.isSome = true ∧
    processVariation convId ("e2e4".toList) infoCp35
        (initState defaultConfig "startpos") =
      (initState defaultConfig "startpos", []) := by
  refine ⟨by decide, rfl, ?_⟩
  decide

/-- C5 amended: a Variation is created and recorded only when the line's
PV token list has at least 5 tokens and at least 5 of them convert to
legal moves (the guards at lines 411 and 438); when both minimums and
the slot/score guards hold, the candidate is built from the slot, the
(already divided) score, the mate field and the converted moves, handed
to the dedup/insert step, and the updated top-K view is emitted. -/
theorem c5_min_length_amended (conv : String → List String → List String)
    (s : SFState) (pv : List Char) (info : AnalysisInfo) :
    ((splitSp pv).length < 5 → processVariation conv pv info s = (s, [])) ∧
    (∀ mpv, info.multipv = some mpv → mpv ≠ 0 → mpv ≤ s.config.multiPV →
      (conv s.currentFen ((splitSp pv).map (fun l => String.mk l))).length < 5 →
      processVariation conv pv info s = (s, [])) ∧
    (∀ mpv, info.multipv = some mpv → mpv ≠ 0 → mpv ≤ s.config.multiPV →
      5 ≤ (splitSp pv).length →
      5 ≤ (conv s.currentFen ((splitSp pv).map (fun l => String.mk l))).length →
      (info.score.isSome ∨ info.mate.isSome) →
      processVariation conv pv info s =
        ({ s with variations :=
            recordCandidate s.variations (candidateOf conv s pv info mpv) },
         [Output.analysisUpdate (topKView
            (recordCandidate s.variations
              (candidateOf conv s pv info mpv)))])) := by
  refine ⟨?_, ?_, ?_⟩
  · intro hlen
    rcases hmv : info.multipv with _ | mpv
    · simp [processVariation, hmv]
    · have hlen' : ((splitSp pv).map (fun l => String.mk l)).length < 5 := by
        simpa [List.length_map] using hlen
      simp only [processVariation, hmv, hlen', ite_self, if_pos, if_true]
  · intro mpv hmv h0 hle hsan
    have hnl : ¬ s.config.multiPV < mpv := not_lt.mpr hle
    have hns : ¬ 5 ≤ (conv s.currentFen
        ((splitSp pv).map (fun l => String.mk l))).length := not_le.mpr hsan
    simp [processVariation, hmv, h0, hnl, hns, ite_self]
  · intro mpv hmv h0 hle hlen5 hsan5 hsc
    have hnl : ¬ s.config.multiPV < mpv := not_lt.mpr hle
    have hnlen : ¬ ((splitSp pv).map (fun l => String.mk l)).length < 5 := by
      simpa [List.length_map] using not_lt.mpr hlen5
    simp [processVariation, candidateOf, hmv, h0, hnl, hnlen, hsan5, hsc,
      hlen5]

/-- Witness for C5's amended theorem: the short-PV and
short-conversion branches at `pv e2e4`, and the recording branch at a
five-token PV. -/
theorem c5_min_length_amended_witness :
    processVariation convId ("e2e4".toList) infoCp35
        (initState defaultConfig "startpos") =
      (initState defaultConfig "startpos", []) ∧
    processVariation convId ("e2e4 e7e5 g1f3 b8c6 f1b5".toList) infoCp35
        (initState defaultConfig "startpos") =
      ({ (initState defaultConfig "startpos") with
          variations := recordCandidate []
            { multipv := 1, score := 7/20, mate := none
              moves := ["e2e4", "e7e5", "g1f3", "b8c6", "f1b5"] } },
       [Output.analysisUpdate (topKView (recordCandidate []
          { multipv := 1, score := 7/20, mate := none
            moves := ["e2e4", "e7e5", "g1f3", "b8c6", "f1b5"] }))]) := by
  constructor
  · exact (c5_min_length_amended convId (initState defaultConfig "startpos")
      ("e2e4".toList) infoCp35).1 (by decide)
  · have h := (c5_min_length_amended convId (initState defaultConfig "startpos")
      ("e2e4 e7e5 g1f3 b8c6 f1b5".toList) infoCp35).2.2 1 rfl (by decide)
      (by decide) (by decide) (by decide) (by decide)
    rw [h]
    decide

/-! ## Claim C7 -/

theorem optf_th_th (v : String) :
    isOptFor "Threads" (Output.cmd (setOptionCmd "Threads" v)) = true := by
  rcases v with ⟨d⟩
  rfl

theorem optf_th_ha (v : String) :
    isOptFor "Threads" (Output.cmd (setOptionCmd "Hash" v)) = false := by
  rcases v with ⟨d⟩
  rfl

theorem optf_th_mp (v : String) :
    isOptFor "Threads" (Output.cmd (setOptionCmd "MultiPV" v)) = false := by
  rcases v with ⟨d⟩
  rfl

theorem optf_th_de (v : String) :
    isOptFor "Threads" (Output.cmd (setOptionCmd "Depth" v)) = false := by
  rcases v with ⟨d⟩
  rfl

theorem optf_th_sk (v : String) :
    isOptFor "Threads" (Output.cmd (setOptionCmd "Skill Level" v)) = false := by
  rcases v with ⟨d⟩
  rfl

theorem optf_ha_th (v : String) :
    isOptFor "Hash" (Output.cmd (setOptionCmd "Threads" v)) = false := by
  rcases v with ⟨d⟩
  rfl

theorem optf_ha_ha (v : String) :
    isOptFor "Hash" (Output.cmd (setOptionCmd "Hash" v)) = true := by
  rcases v with ⟨d⟩
  rfl

theorem optf_ha_mp (v : String) :
    isOptFor "Hash" (Output.cmd (setOptionCmd "MultiPV" v)) = false := by
  rcases v with ⟨d⟩
  rfl

theorem optf_ha_de (v : String) :
    isOptFor "Hash" (Output.cmd (setOptionCmd "Depth" v)) = false := by
  rcases v with ⟨d⟩
  rfl

theorem optf_ha_sk (v : String) :
    isOptFor "Hash" (Output.cmd (setOptionCmd "Skill Level" v)) = false := by
  rcases v with ⟨d⟩
  rfl

theorem optf_mp_th (v : String) :
    isOptFor "MultiPV" (Output.cmd (setOptionCmd "Threads" v)) = false := by
  rcases v with ⟨d⟩
  rfl

theorem optf_mp_ha (v : String) :
    isOptFor "MultiPV" (Output.cmd (setOptionCmd "Hash" v)) = false := by
  rcases v with ⟨d⟩
  rfl

theorem optf_mp_mp (v : String) :
    isOptFor "MultiPV" (Output.cmd (setOptionCmd "MultiPV" v)) = true := by
  rcases v with ⟨d⟩
  rfl

theorem optf_mp_de (v : String) :
    isOptFor "MultiPV" (Output.cmd (setOptionCmd "Depth" v)) = false := by
  rcases v with ⟨d⟩
  rfl

theorem optf_mp_sk (v : String) :
    isOptFor "MultiPV" (Output.cmd (setOptionCmd "Skill Level" v)) = false := by
  rcases v with ⟨d⟩
  rfl

theorem optf_de_th (v : String) :
    isOptFor "Depth" (Output.cmd (setOptionCmd "Threads" v)) = false := by
  rcases v with ⟨d⟩
  rfl

theorem optf_de_ha (v : String) :
    isOptFor "Depth" (Output.cmd (setOptionCmd "Hash" v)) = false := by
  rcases v with ⟨d⟩
  rfl

theorem optf_de_mp (v : String) :
    isOptFor "Depth" (Output.cmd (setOptionCmd "MultiPV" v)) = false := by
  rcases v with ⟨d⟩
  rfl

theorem optf_de_de (v : String) :
    isOptFor "Depth" (Output.cmd (setOptionCmd "Depth" v)) = true := by
  rcases v with ⟨d⟩
  rfl

theorem optf_de_sk (v : String) :
    isOptFor "Depth" (Output.cmd (setOptionCmd "Skill Level" v)) = false := by
  rcases v with ⟨d⟩
  rfl

theorem optf_sk_th (v : String) :
    isOptFor "Skill Level" (Output.cmd (setOptionCmd "Threads" v)) = false := by
  rcases v with ⟨d⟩
  rfl

theorem optf_sk_ha (v : String) :
    isOptFor "Skill Level" (Output.cmd (setOptionCmd "Hash" v)) = false := by
  rcases v with ⟨d⟩
  rfl

theorem optf_sk_mp (v : String) :
    isOptFor "Skill Level" (Output.cmd (setOptionCmd "MultiPV" v)) = false := by
  rcases v with ⟨d⟩
  rfl

theorem optf_sk_de (v : String) :
    isOptFor "Skill Level" (Output.cmd (setOptionCmd "Depth" v)) = false := by
  rcases v with ⟨d⟩
  rfl

theorem optf_sk_sk (v : String) :
    isOptFor "Skill Level" (Output.cmd (setOptionCmd "Skill Level" v)) = true := by
  rcases v with ⟨d⟩
  rfl

theorem cnt_th_th (c : EngineConfig) (p : PartialEngineConfig) :
    (threadsOptCmds c p).countP (isOptFor "Threads") = countFor p.threads c.threads := by
  cases hg : p.threads with
  | none => simp [threadsOptCmds, hg, countFor]
  | some v =>
    by_cases hv : v = c.threads <;>
      simp [threadsOptCmds, hg, hv, countFor, optf_th_th, List.countP_cons]

theorem cnt_th_ha (c : EngineConfig) (p : PartialEngineConfig) :
    (hashOptCmds c p).countP (isOptFor "Threads") = 0 := by
  cases hg : p.hash with
  | none => simp [hashOptCmds, hg]
  | some v =>
    by_cases hv : v = c.hash <;>
      simp [hashOptCmds, hg, hv, optf_th_ha, List.countP_cons]

theorem cnt_th_mp (c : EngineConfig) (p : PartialEngineConfig) :
    (multiPVOptCmds c p).countP (isOptFor "Threads") = 0 := by
  cases hg : p.multiPV with
  | none => simp [multiPVOptCmds, hg]
  | some v =>
    by_cases hv : v = c.multiPV <;>
      simp [multiPVOptCmds, hg, hv, optf_th_mp, List.countP_cons]

theorem cnt_th_de (c : EngineConfig) (p : PartialEngineConfig) :
    (depthOptCmds c p).countP (isOptFor "Threads") = 0 := by
  cases hg : p.depth with
  | none => simp [depthOptCmds, hg]
  | some v =>
    by_cases hv : v = c.depth <;>
      simp [depthOptCmds, hg, hv, optf_th_de, List.countP_cons]

theorem cnt_th_sk (c : EngineConfig) (p : PartialEngineConfig) :
    (skillOptCmds c p).countP (isOptFor "Threads") = 0 := by
  cases hg : p.skillLevel with
  | none => simp [skillOptCmds, hg]
  | some v =>
    by_cases hv : v = c.skillLevel <;>
      simp [skillOptCmds, hg, hv, optf_th_sk, List.countP_cons]

theorem cnt_ha_th (c : EngineConfig) (p : PartialEngineConfig) :
    (threadsOptCmds c p).countP (isOptFor "Hash") = 0 := by
  cases hg : p.threads with
  | none => simp [threadsOptCmds, hg]
  | some v =>
    by_cases hv : v = c.threads <;>
      simp [threadsOptCmds, hg, hv, optf_ha_th, List.countP_cons]

theorem cnt_ha_ha (c : EngineConfig) (p : PartialEngineConfig) :
    (hashOptCmds c p).countP (isOptFor "Hash") = countFor p.hash c.hash := by
  cases hg : p.hash with
  | none => simp [hashOptCmds, hg, countFor]
  | some v =>
    by_cases hv : v = c.hash <;>
      simp [hashOptCmds, hg, hv, countFor, optf_ha_ha, List.countP_cons]

theorem cnt_ha_mp (c : EngineConfig) (p : PartialEngineConfig) :
    (multiPVOptCmds c p).countP (isOptFor "Hash") = 0 := by
  cases hg : p.multiPV with
  | none => simp [multiPVOptCmds, hg]
  | some v =>
    by_cases hv : v = c.multiPV <;>
      simp [multiPVOptCmds, hg, hv, optf_ha_mp, List.countP_cons]

theorem cnt_ha_de (c : EngineConfig) (p : PartialEngineConfig) :
    (depthOptCmds c p).countP (isOptFor "Hash") = 0 := by
  cases hg : p.depth with
  | none => simp [depthOptCmds, hg]
  | some v =>
    by_cases hv : v = c.depth <;>
      simp [depthOptCmds, hg, hv, optf_ha_de, List.countP_cons]

theorem cnt_ha_sk (c : EngineConfig) (p : PartialEngineConfig) :
    (skillOptCmds c p).countP (isOptFor "Hash") = 0 := by
  cases hg : p.skillLevel with
  | none => simp [skillOptCmds, hg]
  | some v =>
    by_cases hv : v = c.skillLevel <;>
      simp [skillOptCmds, hg, hv, optf_ha_sk, List.countP_cons]

theorem cnt_mp_th (c : EngineConfig) (p : PartialEngineConfig) :
    (threadsOptCmds c p).countP (isOptFor "MultiPV") = 0 := by
  cases hg : p.threads with
  | none => simp [threadsOptCmds, hg]
  | some v =>
    by_cases hv : v = c.threads <;>
      simp [threadsOptCmds, hg, hv, optf_mp_th, List.countP_cons]

theorem cnt_mp_ha (c : EngineConfig) (p : PartialEngineConfig) :
    (hashOptCmds c p).countP (isOptFor "MultiPV") = 0 := by
  cases hg : p.hash with
  | none => simp [hashOptCmds, hg]
  | some v =>
    by_cases hv : v = c.hash <;>
      simp [hashOptCmds, hg, hv, optf_mp_ha, List.countP_cons]

theorem cnt_mp_mp (c : EngineConfig) (p : PartialEngineConfig) :
    (multiPVOptCmds c p).countP (isOptFor "MultiPV") = countFor p.multiPV c.multiPV := by
  cases hg : p.multiPV with
  | none => simp [multiPVOptCmds, hg, countFor]
  | some v =>
    by_cases hv : v = c.multiPV <;>
      simp [multiPVOptCmds, hg, hv, countFor, optf_mp_mp, List.countP_cons]

theorem cnt_mp_de (c : EngineConfig) (p : PartialEngineConfig) :
    (depthOptCmds c p).countP (isOptFor "MultiPV") = 0 := by
  cases hg : p.depth with
  | none => simp [depthOptCmds, hg]
  | some v =>
    by_cases hv : v = c.depth <;>
      simp [depthOptCmds, hg, hv, optf_mp_de, List.countP_cons]

theorem cnt_mp_sk (c : EngineConfig) (p : PartialEngineConfig) :
    (skillOptCmds c p).countP (isOptFor "MultiPV") = 0 := by
  cases hg : p.skillLevel with
  | none => simp [skillOptCmds, hg]
  | some v =>
    by_cases hv : v = c.skillLevel <;>
      simp [skillOptCmds, hg, hv, optf_mp_sk, List.countP_cons]

theorem cnt_de_th (c : EngineConfig) (p : PartialEngineConfig) :
    (threadsOptCmds c p).countP (isOptFor "Depth") = 0 := by
  cases hg : p.threads with
  | none => simp [threadsOptCmds, hg]
  | some v =>
    by_cases hv : v = c.threads <;>
      simp [threadsOptCmds, hg, hv, optf_de_th, List.countP_cons]

theorem cnt_de_ha (c : EngineConfig) (p : PartialEngineConfig) :
    (hashOptCmds c p).countP (isOptFor "Depth") = 0 := by
  cases hg : p.hash with
  | none => simp [hashOptCmds, hg]
  | some v =>
    by_cases hv : v = c.hash <;>
      simp [hashOptCmds, hg, hv, optf_de_ha, List.countP_cons]

theorem cnt_de_mp (c : EngineConfig) (p : PartialEngineConfig) :
    (multiPVOptCmds c p).countP (isOptFor "Depth") = 0 := by
  cases hg : p.multiPV with
  | none => simp [multiPVOptCmds, hg]
  | some v =>
    by_cases hv : v = c.multiPV <;>
      simp [multiPVOptCmds, hg, hv, optf_de_mp, List.countP_cons]

theorem cnt_de_de (c : EngineConfig) (p : PartialEngineConfig) :
    (depthOptCmds c p).countP (isOptFor "Depth") = countFor p.depth c.depth := by
  cases hg : p.depth with
  | none => simp [depthOptCmds, hg, countFor]
  | some v =>
    by_cases hv : v = c.depth <;>
      simp [depthOptCmds, hg, hv, countFor, optf_de_de, List.countP_cons]

theorem cnt_de_sk (c : EngineConfig) (p : PartialEngineConfig) :
    (skillOptCmds c p).countP (isOptFor "Depth") = 0 := by
  cases hg : p.skillLevel with
  | none => simp [skillOptCmds, hg]
  | some v =>
    by_cases hv : v = c.skillLevel <;>
      simp [skillOptCmds, hg, hv, optf_de_sk, List.countP_cons]

theorem cnt_sk_th (c : EngineConfig) (p : PartialEngineConfig) :
    (threadsOptCmds c p).countP (isOptFor "Skill Level") = 0 := by
  cases hg : p.threads with
  | none => simp [threadsOptCmds, hg]
  | some v =>
    by_cases hv : v = c.threads <;>
      simp [threadsOptCmds, hg, hv, optf_sk_th, List.countP_cons]

theorem cnt_sk_ha (c : EngineConfig) (p : PartialEngineConfig) :
    (hashOptCmds c p).countP (isOptFor "Skill Level") = 0 := by
  cases hg : p.hash with
  | none => simp [hashOptCmds, hg]
  | some v =>
    by_cases hv : v = c.hash <;>
      simp [hashOptCmds, hg, hv, optf_sk_ha, List.countP_cons]

theorem cnt_sk_mp (c : EngineConfig) (p : PartialEngineConfig) :
    (multiPVOptCmds c p).countP (isOptFor "Skill Level") = 0 := by
  cases hg : p.multiPV with
  | none => simp [multiPVOptCmds, hg]
  | some v =>
    by_cases hv : v = c.multiPV <;>
      simp [multiPVOptCmds, hg, hv, optf_sk_mp, List.countP_cons]

theorem cnt_sk_de (c : EngineConfig) (p : PartialEngineConfig) :
    (depthOptCmds c p).countP (isOptFor "Skill Level") = 0 := by
  cases hg : p.depth with
  | none => simp [depthOptCmds, hg]
  | some v =>
    by_cases hv : v = c.depth <;>
      simp [depthOptCmds, hg, hv, optf_sk_de, List.countP_cons]

theorem cnt_sk_sk (c : EngineConfig) (p : PartialEngineConfig) :
    (skillOptCmds c p).countP (isOptFor "Skill Level") = countFor p.skillLevel c.skillLevel := by
  cases hg : p.skillLevel with
  | none => simp [skillOptCmds, hg, countFor]
  | some v =>
    by_cases hv : v = c.skillLevel <;>
      simp [skillOptCmds, hg, hv, countFor, optf_sk_sk, List.countP_cons]

theorem countP_optionSetCmds_th (c : EngineConfig) (p : PartialEngineConfig) :
    (optionSetCmds c p).countP (isOptFor "Threads") = countFor p.threads c.threads := by
  simp [optionSetCmds, List.countP_append, cnt_th_th, cnt_th_ha, cnt_th_mp, cnt_th_de, cnt_th_sk]

theorem countP_optionSetCmds_ha (c : EngineConfig) (p : PartialEngineConfig) :
    (optionSetCmds c p).countP (isOptFor "Hash") = countFor p.hash c.hash := by
  simp [optionSetCmds, List.countP_append, cnt_ha_th, cnt_ha_ha, cnt_ha_mp, cnt_ha_de, cnt_ha_sk]

theorem countP_optionSetCmds_mp (c : EngineConfig) (p : PartialEngineConfig) :
    (optionSetCmds c p).countP (isOptFor "MultiPV") = countFor p.multiPV c.multiPV := by
  simp [optionSetCmds, List.countP_append, cnt_mp_th, cnt_mp_ha, cnt_mp_mp, cnt_mp_de, cnt_mp_sk]

theorem countP_optionSetCmds_de (c : EngineConfig) (p : PartialEngineConfig) :
    (optionSetCmds c p).countP (isOptFor "Depth") = countFor p.depth c.depth := by
  simp [optionSetCmds, List.countP_append, cnt_de_th, cnt_de_ha, cnt_de_mp, cnt_de_de, cnt_de_sk]

theorem countP_optionSetCmds_sk (c : EngineConfig) (p : PartialEngineConfig) :
    (optionSetCmds c p).countP (isOptFor "Skill Level") = countFor p.skillLevel c.skillLevel := by
  simp [optionSetCmds, List.countP_append, cnt_sk_th, cnt_sk_ha, cnt_sk_mp, cnt_sk_de, cnt_sk_sk]

theorem optf_isready (F : String) :
    isOptFor F (Output.cmd "isready") = false := by
  rcases F with ⟨fd⟩
  rfl

/-- None of `analyze`'s commands is an option-set command. -/
theorem countP_analyze_zero (F : String) (fen : String) (s : SFState) :
    ((analyze fen s).2).countP (isOptFor F) = 0 := by
  rcases F with ⟨fd⟩
  simp only [analyze]
  split_ifs
  · rfl
  · by_cases hfen : fen = "startpos"
    · simp only [positionCmd, if_pos hfen]
      rfl
    · simp only [positionCmd, if_neg hfen]
      rcases fen with ⟨fl⟩
      rfl

/-- `updateConfig`'s option-set traffic is exactly its diff chunk: the
trailing `isready` and any re-`analyze` commands contribute none. -/
theorem countP_updateConfig (F : String) (p : PartialEngineConfig)
    (s : SFState) (hw : s.hasWorker = true) :
    ((updateConfig p s).2).countP (isOptFor F) =
      (optionSetCmds s.config p).countP (isOptFor F) := by
  simp only [updateConfig, hw]
  by_cases han : s.isAnalyzing = true
  · simp [han, List.countP_append, countP_analyze_zero, optf_isready]
  · simp [han, List.countP_append, optf_isready]

/-- C7: from any worker-holding state, `updateConfig p` sends exactly
one option-set command per field of the partial whose value differs
from the current config and none for unchanged fields; and if the
session is Analyzing it re-issues `analyze` with the same recorded
position under the merged configuration (clearing the table and
sending stop, ucinewgame, the same position, isready after the diff). -/
theorem c7_update_config (p : PartialEngineConfig) (s : SFState)
    (hw : s.hasWorker = true) :
    ((updateConfig p s).2.countP (isOptFor "Threads") =
      countFor p.threads s.config.threads) ∧
    ((updateConfig p s).2.countP (isOptFor "Hash") =
      countFor p.hash s.config.hash) ∧
    ((updateConfig p s).2.countP (isOptFor "MultiPV") =
      countFor p.multiPV s.config.multiPV) ∧
    ((updateConfig p s).2.countP (isOptFor "Depth") =
      countFor p.depth s.config.depth) ∧
    ((updateConfig p s).2.countP (isOptFor "Skill Level") =
      countFor p.skillLevel s.config.skillLevel) ∧
    (s.isAnalyzing = true →
      (updateConfig p s).1.variations = [] ∧
      (updateConfig p s).1.currentFen = s.currentFen ∧
      (updateConfig p s).1.isAnalyzing = true ∧
      (updateConfig p s).1.config = mergeConfig s.config p ∧
      (updateConfig p s).2 =
        optionSetCmds s.config p ++ [Output.cmd "isready"] ++
          [Output.cmd "stop", Output.cmd "ucinewgame",
           Output.cmd (positionCmd s.currentFen), Output.cmd "isready"]) ∧
    (s.isAnalyzing = false →
      (updateConfig p s).2 = optionSetCmds s.config p ++ [Output.cmd "isready"] ∧
      (updateConfig p s).1 = { s with config := mergeConfig s.config p }) := by
  refine ⟨?_, ?_, ?_, ?_, ?_, ?_, ?_⟩
  · rw [countP_updateConfig _ p s hw]
    exact countP_optionSetCmds_th s.config p
  · rw [countP_updateConfig _ p s hw]
    exact countP_optionSetCmds_ha s.config p
  · rw [countP_updateConfig _ p s hw]
    exact countP_optionSetCmds_mp s.config p
  · rw [countP_updateConfig _ p s hw]
    exact countP_optionSetCmds_de s.config p
  · rw [countP_updateConfig _ p s hw]
    exact countP_optionSetCmds_sk s.config p
  · intro han
    simp [updateConfig, analyze, hw, han]
  · intro han
    simp [updateConfig, hw, han]

/-- Witness for C7 at the spec's round-trip scenario:
`updateConfig {threads := 4}` against a config with `threads = 1`. -/
theorem c7_update_config_witness :
    ((updateConfig { threads := some 4 } (initState defaultConfig "startpos")).2.countP
        (isOptFor "Threads") =
      countFor (some (4 : ℤ)) (initState defaultConfig "startpos").config.threads) ∧
    ((updateConfig { threads := some 4 } (initState defaultConfig "startpos")).2.countP
        (isOptFor "Hash") = countFor (none : Option ℤ)
          (initState defaultConfig "startpos").config.hash) ∧
    (((initState defaultConfig "startpos")).isAnalyzing = false →
      (updateConfig { threads := some 4 } (initState defaultConfig "startpos")).2 =
        optionSetCmds (initState defaultConfig "startpos").config
            { threads := some 4 } ++ [Output.cmd "isready"]) := by
  have h := c7_update_config { threads := some 4 }
    (initState defaultConfig "startpos") rfl
  exact ⟨h.1, h.2.1, fun han => (h.2.2.2.2.2.2 han).1⟩

/-! ## Claim C3 -/

theorem mem_mapSet (m : List (ℕ × Variation)) (k : ℕ) (v : Variation)
    (p : ℕ × Variation) (hp : p ∈ mapSet m k v) : p = (k, v) ∨ p ∈ m := by
  induction m with
  | nil => simpa [mapSet] using hp
  | cons q rest ih =>
    rcases q with ⟨k', v'⟩
    simp only [mapSet] at hp
    split_ifs at hp with hk
    · rcases List.mem_cons.mp hp with rfl | hp'
      · exact Or.inl rfl
      · exact Or.inr (List.mem_cons_of_mem _ hp')
    · rcases List.mem_cons.mp hp with rfl | hp'
      · exact Or.inr (List.mem_cons_self _ _)
      · rcases ih hp' with h' | h'
        · exact Or.inl h'
        · exact Or.inr (List.mem_cons_of_mem _ h')

theorem mem_keys_mapSet (m : List (ℕ × Variation)) (k : ℕ) (v : Variation)
    (x : ℕ) (hx : x ∈ (mapSet m k v).map (·.1)) :
    x = k ∨ x ∈ m.map (·.1) := by
  obtain ⟨p, hp, rfl⟩ := List.mem_map.mp hx
  rcases mem_mapSet m k v p hp with rfl | hp'
  · exact Or.inl rfl
  · exact Or.inr (List.mem_map.mpr ⟨p, hp', rfl⟩)

theorem nodup_keys_mapSet (m : List (ℕ × Variation)) (k : ℕ) (v : Variation)
    (hm : (m.map (·.1)).Nodup) : ((mapSet m k v).map (·.1)).Nodup := by
  induction m with
  | nil => simp [mapSet]
  | cons q rest ih =>
    rcases q with ⟨k', v'⟩
    simp only [mapSet]
    split_ifs with hk
    · subst hk
      simpa using hm
    · simp only [List.map_cons, List.nodup_cons] at hm ⊢
      refine ⟨?_, ih hm.2⟩
      intro hmem
      rcases mem_keys_mapSet rest k v k' hmem with rfl | h'
      · exact hk rfl
      · exact hm.1 h'

theorem nodup_fm_mapSet (m : List (ℕ × Variation)) (k : ℕ) (v : Variation)
    (hm : (m.map (fun p => p.2.moves.head?)).Nodup)
    (hfresh : ∀ p ∈ m, p.2.moves.head? ≠ v.moves.head?) :
    ((mapSet m k v).map (fun p => p.2.moves.head?)).Nodup := by
  induction m with
  | nil => simp [mapSet]
  | cons q rest ih =>
    rcases q with ⟨k', v'⟩
    simp only [mapSet]
    split_ifs with hk
    · simp only [List.map_cons, List.nodup_cons] at hm ⊢
      refine ⟨?_, hm.2⟩
      intro hmem
      obtain ⟨p, hp, hpe⟩ := List.mem_map.mp hmem
      exact hfresh p (List.mem_cons_of_mem _ hp) hpe
    · simp only [List.map_cons, List.nodup_cons] at hm ⊢
      refine ⟨?_, ih hm.2 (fun p hp => hfresh p (List.mem_cons_of_mem _ hp))⟩
      intro hmem
      obtain ⟨p, hp, hpe⟩ := List.mem_map.mp hmem
      rcases mem_mapSet rest k v p hp with rfl | hp'
      · exact hfresh (k', v') (List.mem_cons_self _ _) (hpe ▸ rfl)
      · exact hm.1 (List.mem_map.mpr ⟨p, hp', hpe⟩)

/-- `recordCandidate` preserves the table's three structural invariants:
distinct keys, keys within the slot range, distinct first moves. -/
theorem recordCandidate_preserves (m : List (ℕ × Variation)) (v : Variation)
    (n : ℕ) (hk : (m.map (·.1)).Nodup)
    (hr : ∀ p ∈ m, 1 ≤ p.1 ∧ p.1 ≤ n)
    (hv : 1 ≤ v.multipv ∧ v.multipv ≤ n)
    (hfm : (m.map (fun p => p.2.moves.head?)).Nodup) :
    ((recordCandidate m v).map (·.1)).Nodup ∧
    (∀ p ∈ recordCandidate m v, 1 ≤ p.1 ∧ p.1 ≤ n) ∧
    ((recordCandidate m v).map (fun p => p.2.moves.head?)).Nodup := by
  rcases hd : m.filter (sameFirstMove v) with _ | ⟨d, ds⟩
  · have hfresh : ∀ p ∈ m, p.2.moves.head? ≠ v.moves.head? := by
      intro p hp
      have := List.filter_eq_nil_iff.mp hd p hp
      simpa [sameFirstMove] using this
    simp only [recordCandidate, hd]
    refine ⟨nodup_keys_mapSet m _ v hk, ?_, nodup_fm_mapSet m _ v hfm hfresh⟩
    intro p hp
    rcases mem_mapSet m _ v p hp with rfl | hp'
    · exact hv
    · exact hr p hp'
  · simp only [recordCandidate, hd]
    split_ifs with hc
    · set m' := m.filter (fun p => !(decide (p.1 ∈ (d :: ds).map (·.1)))) with hm'
      have hsub : m'.Sublist m := List.filter_sublist m
      have hk' : (m'.map (·.1)).Nodup := (hsub.map (·.1)).nodup hk
      have hfm' : (m'.map (fun p => p.2.moves.head?)).Nodup :=
        (hsub.map _).nodup hfm
      have hfresh : ∀ p ∈ m', p.2.moves.head? ≠ v.moves.head? := by
        intro p hp hpe
        have hmem := List.mem_filter.mp hp
        have hcond := hmem.2
        rw [Bool.not_eq_true', decide_eq_false_iff_not] at hcond
        apply hcond
        have hpd : p ∈ m.filter (sameFirstMove v) := by
          refine List.mem_filter.mpr ⟨hmem.1, ?_⟩
          simp [sameFirstMove, hpe]
        rw [hd] at hpd
        exact List.mem_map.mpr ⟨p, hpd, rfl⟩
      refine ⟨nodup_keys_mapSet m' _ v hk', ?_, nodup_fm_mapSet m' _ v hfm' hfresh⟩
      intro p hp
      rcases mem_mapSet m' _ v p hp with rfl | hp'
      · exact hv
      · exact hr p (List.mem_filter.mp hp').1
    · exact ⟨hk, hr, hfm⟩

theorem topKView_good (cfg : EngineConfig) (m : List (ℕ × Variation))
    (hk : (m.map (·.1)).Nodup)
    (hr : ∀ p ∈ m, 1 ≤ p.1 ∧ p.1 ≤ cfg.multiPV)
    (hfm : (m.map (fun p => p.2.moves.head?)).Nodup) :
    (topKView m).length ≤ cfg.multiPV ∧
    ((topKView m).map (fun v => v.moves.head?)).Nodup := by
  constructor
  · have h1 : (topKView m).length ≤ (m.map (·.2)).length := by
      unfold topKView
      calc (List.take 4 (sortDesc (m.map (·.2)))).length
          ≤ (sortDesc (m.map (·.2))).length :=
            (List.take_sublist 4 _).length_le
        _ = (m.map (·.2)).length := (sortDesc_perm _).length_eq
    have h2 : m.length ≤ cfg.multiPV := by
      have hsub : ∀ x ∈ m.map (·.1), x ∈ Finset.Icc 1 cfg.multiPV := by
        intro x hx
        obtain ⟨p, hp, rfl⟩ := List.mem_map.mp hx
        have := hr p hp
        simp [Finset.mem_Icc, this.1, this.2]
      calc m.length = (m.map (·.1)).length := (List.length_map m _).symm
        _ = (m.map (·.1)).toFinset.card := (List.toFinset_card_of_nodup hk).symm
        _ ≤ (Finset.Icc 1 cfg.multiPV).card :=
            Finset.card_le_card (fun x hx => hsub x (List.mem_toFinset.mp hx))
        _ = cfg.multiPV := by simp [Nat.card_Icc]
    calc (topKView m).length ≤ (m.map (·.2)).length := h1
      _ = m.length := List.length_map m _
      _ ≤ cfg.multiPV := h2
  · have hvals : ((m.map (·.2)).map (fun v => v.moves.head?)).Nodup := by
      rw [List.map_map]
      exact hfm
    have hsorted : ((sortDesc (m.map (·.2))).map
        (fun v => v.moves.head?)).Nodup :=
      (((sortDesc_perm (m.map (·.2))).map _).nodup_iff).mpr hvals
    exact (((List.take_sublist 4 _).map _).nodup hsorted)

/-- `processVariation` either leaves the session untouched with no
output, or records the candidate and emits the updated top-K view. -/
theorem processVariation_cases (conv : String → List String → List String)
    (pv : List Char) (info : AnalysisInfo) (s : SFState) :
    processVariation conv pv info s = (s, []) ∨
    ∃ mpv, info.multipv = some mpv ∧ mpv ≠ 0 ∧ mpv ≤ s.config.multiPV ∧
      processVariation conv pv info s =
        ({ s with variations :=
            recordCandidate s.variations (candidateOf conv s pv info mpv) },
         [Output.analysisUpdate (topKView
            (recordCandidate s.variations (candidateOf conv s pv info mpv)))]) := by
  rcases hmv : info.multipv with _ | mpv
  · left
    simp [processVariation, hmv]
  · by_cases h0 : mpv = 0
    · left
      simp [processVariation, hmv, h0]
    · by_cases h1 : s.config.multiPV < mpv
      · left
        simp [processVariation, hmv, h0, h1]
      · by_cases h2 : ((splitSp pv).map (fun l => String.mk l)).length < 5
        · left
          have h2' : (splitSp pv).length < 5 := by
            simpa [List.length_map] using h2
          simp [processVariation, hmv, h0, h1, h2]
          intro hx
          exact absurd hx (not_le.mpr h2')
        · by_cases h3 : 5 ≤ (conv s.currentFen
              ((splitSp pv).map (fun l => String.mk l))).length ∧
              (info.score.isSome = true ∨ info.mate.isSome = true)
          · right
            have hlen5 : 5 ≤ (splitSp pv).length := by
              simpa [List.length_map] using not_lt.mp h2
            refine ⟨mpv, rfl, h0, not_lt.mp h1, ?_⟩
            simp [processVariation, candidateOf, hmv, h0, h1, h2, h3.1, h3.2,
              hlen5]
          · left
            simp only [processVariation, hmv]
            simp only [if_neg h0, if_neg h1, if_neg h2]
            rw [if_neg h3]

theorem processVariation_inv (conv : String → List String → List String)
    (pv : List Char) (info : AnalysisInfo) (s : SFState) (cfg : EngineConfig)
    (hinv : TableInv cfg s) :
    TableInv cfg (processVariation conv pv info s).1 ∧
    ∀ o ∈ (processVariation conv pv info s).2, GoodEmit cfg o := by
  rcases processVariation_cases conv pv info s with heq | ⟨mpv, hmv, h0, hle, heq⟩
  · rw [heq]
    exact ⟨hinv, by simp⟩
  · obtain ⟨hcfg, hk, hr, hfm⟩ := hinv
    have hv : 1 ≤ (candidateOf conv s pv info mpv).multipv ∧
        (candidateOf conv s pv info mpv).multipv ≤ cfg.multiPV := by
      refine ⟨?_, ?_⟩
      · simpa [candidateOf] using Nat.one_le_iff_ne_zero.mpr h0
      · simpa [candidateOf] using hcfg ▸ hle
    have hrec := recordCandidate_preserves s.variations
      (candidateOf conv s pv info mpv) cfg.multiPV hk hr hv hfm
    rw [heq]
    refine ⟨⟨hcfg, hrec.1, hrec.2.1, hrec.2.2⟩, ?_⟩
    intro o ho
    rw [List.mem_singleton] at ho
    subst ho
    intro vs hvs
    injection hvs with h
    subst h
    exact topKView_good cfg _ hrec.1 hrec.2.1 hrec.2.2

theorem handleInfoMessage_eq_none (conv : String → List String → List String)
    (msg : List Char) (s : SFState) (h : matchPv msg = none) :
    handleInfoMessage conv msg s =
      (s, if infoNonempty (parseInfoLine msg) = true then
            [Output.infoUpdate (parseInfoLine msg)]
          else []) := by
  unfold handleInfoMessage
  rw [h]

theorem handleInfoMessage_eq_some (conv : String → List String → List String)
    (msg : List Char) (s : SFState) (pvStr : List Char)
    (h : matchPv msg = some pvStr) :
    handleInfoMessage conv msg s =
      (if ((parseInfoLine msg).multipv.isSome ∧
            (parseInfoLine msg).multipv ≠ some 0) ∧
          ((parseInfoLine msg).score.isSome ∨
            (parseInfoLine msg).mate.isSome) then
        ((processVariation conv pvStr (parseInfoLine msg) s).1,
          (if infoNonempty (parseInfoLine msg) = true then
            [Output.infoUpdate (parseInfoLine msg)]
          else []) ++ (processVariation conv pvStr (parseInfoLine msg) s).2)
      else
        (s, if infoNonempty (parseInfoLine msg) = true then
              [Output.infoUpdate (parseInfoLine msg)]
            else [])) := by
  unfold handleInfoMessage
  rw [h]

theorem handleInfoMessage_inv (conv : String → List String → List String)
    (msg : List Char) (s : SFState) (cfg : EngineConfig)
    (hinv : TableInv cfg s) :
    TableInv cfg (handleInfoMessage conv msg s).1 ∧
    ∀ o ∈ (handleInfoMessage conv msg s).2, GoodEmit cfg o := by
  have hio : ∀ i : AnalysisInfo, GoodEmit cfg (Output.infoUpdate i) := by
    intro i vs h
    exact Output.noConfusion h
  have hinfoOuts : ∀ o ∈ (if infoNonempty (parseInfoLine msg) = true then
      [Output.infoUpdate (parseInfoLine msg)] else []), GoodEmit cfg o := by
    intro o ho
    split_ifs at ho
    · rw [List.mem_singleton] at ho
      rw [ho]
      exact hio _
    · simp at ho
  rcases hpv : matchPv msg with _ | pvStr
  · rw [handleInfoMessage_eq_none conv msg s hpv]
    exact ⟨hinv, hinfoOuts⟩
  · rw [handleInfoMessage_eq_some conv msg s pvStr hpv]
    by_cases hcond : ((parseInfoLine msg).multipv.isSome = true ∧
        (parseInfoLine msg).multipv ≠ some 0) ∧
        ((parseInfoLine msg).score.isSome = true ∨
          (parseInfoLine msg).mate.isSome = true)
    · rw [if_pos hcond]
      have h := processVariation_inv conv pvStr (parseInfoLine msg) s cfg hinv
      refine ⟨h.1, ?_⟩
      intro o ho
      rcases List.mem_append.mp ho with ho' | ho'
      · exact hinfoOuts o ho'
      · exact h.2 o ho'
    · rw [if_neg hcond]
      exact ⟨hinv, hinfoOuts⟩

theorem handleMessage_inv (conv : String → List String → List String)
    (msg : String) (s : SFState) (cfg : EngineConfig) (hinv : TableInv cfg s) :
    TableInv cfg (handleMessage conv msg s).1 ∧
    ∀ o ∈ (handleMessage conv msg s).2, GoodEmit cfg o := by
  unfold handleMessage
  split_ifs with h1 h2 h3 h4 h5
  · exact ⟨hinv, by simp⟩
  · refine ⟨hinv, ?_⟩
    intro o ho vs hvs
    simp at ho
    rcases ho with rfl | rfl | rfl | rfl | rfl | rfl <;> exact Output.noConfusion hvs
  · refine ⟨hinv, ?_⟩
    intro o ho vs hvs
    simp at ho
    rcases ho with rfl | rfl <;> exact Output.noConfusion hvs
  · exact ⟨hinv, by simp⟩
  · exact handleInfoMessage_inv conv msg.toList s cfg hinv
  · exact ⟨hinv, by simp⟩

theorem stepAct_inv (conv : String → List String → List String) (s : SFState)
    (a : SessionAct) (cfg : EngineConfig) (hinv : TableInv cfg s) :
    TableInv cfg (stepAct conv s a).1 ∧
    ∀ o ∈ (stepAct conv s a).2, GoodEmit cfg o := by
  cases a with
  | recv m => exact handleMessage_inv conv m s cfg hinv
  | callAnalyze fen =>
    unfold stepAct analyze
    split_ifs
    · exact ⟨hinv, by simp⟩
    · refine ⟨⟨hinv.1, by simp, by simp, by simp⟩, ?_⟩
      intro o ho vs hvs
      simp at ho
      rcases ho with rfl | rfl | rfl | rfl <;> exact Output.noConfusion hvs
  | callStop =>
    unfold stepAct stop
    split_ifs
    · exact ⟨hinv, by simp⟩
    · obtain ⟨hcfg, hk, hr, hfm⟩ := hinv
      refine ⟨⟨hcfg, hk, hr, hfm⟩, ?_⟩
      intro o ho vs hvs
      simp at ho
      rw [ho] at hvs
      exact Output.noConfusion hvs

theorem runSession_inv (conv : String → List String → List String)
    (cfg : EngineConfig) (acts : List SessionAct) :
    ∀ s : SFState, TableInv cfg s →
      TableInv cfg (runSession conv s acts).1 ∧
      ∀ o ∈ (runSession conv s acts).2, GoodEmit cfg o := by
  induction acts with
  | nil =>
    intro s h
    exact ⟨h, by simp [runSession]⟩
  | cons a rest ih =>
    intro s h
    have h1 := stepAct_inv conv s a cfg h
    have h2 := ih _ h1.1
    refine ⟨by simpa [runSession] using h2.1, ?_⟩
    intro o ho
    simp only [runSession, List.mem_append] at ho
    rcases ho with ho' | ho'
    · exact h1.2 o ho'
    · exact h2.2 o ho'

/-- C3: for every SAN conversion, configuration, initial position and
sequence of recorded engine lines (interleaved with `analyze`/`stop`
calls), every variations list emitted to observers has at most
`multiPV` entries and no two of its entries share a first move. -/
theorem c3_topk_invariant (conv : String → List String → List String)
    (cfg : EngineConfig) (fen0 : String) (acts : List SessionAct)
    (vs : List Variation)
    (hmem : Output.analysisUpdate vs ∈
      (runSession conv (initState cfg fen0) acts).2) :
    vs.length ≤ cfg.multiPV ∧ (vs.map (fun v => v.moves.head?)).Nodup := by
  have hinit : TableInv cfg (initState cfg fen0) := by
    refine ⟨rfl, by simp [initState], by simp [initState], by simp [initState]⟩
  exact (runSession_inv conv cfg acts (initState cfg fen0) hinit).2 _ hmem vs rfl

/-- Witness for C3: a concrete run over one real info line (the
emitted moves also witness the `/pv (.+)/` quirk of matching inside
the `multipv` token). -/
theorem c3_topk_invariant_witness :
    c3Vars.length ≤ defaultConfig.multiPV ∧
    (c3Vars.map (fun v => v.moves.head?)).Nodup :=
  c3_topk_invariant convId defaultConfig "startpos"
    [SessionAct.recv "info multipv 1 score cp 35 pv e2e4"] c3Vars (by decide)

/-! ## Claim C9 -/

theorem settle_resolved (r : Option LoadResult) (n : LoadResult)
    (h : settle r n = some LoadResult.resolved) :
    r = some LoadResult.resolved ∨ n = LoadResult.resolved := by
  rcases r with _ | r0
  · right
    simpa [settle] using h
  · left
    simpa [settle] using h

theorem fires_from_timeout (evs : List LoadEvent)
    (h : ∀ e ∈ evs, e = LoadEvent.timerFire) :
    evs.foldl loadStep timeoutState = timeoutState := by
  induction evs with
  | nil => rfl
  | cons e rest ih =>
    have he := h e (by simp)
    subst he
    simp only [List.foldl_cons]
    rw [show loadStep timeoutState LoadEvent.timerFire = timeoutState from rfl]
    exact ih (fun e' he' => h e' (List.mem_cons_of_mem _ he'))

theorem load_timeout (evs : List LoadEvent)
    (h1 : ∀ m, LoadEvent.lmsg m ∉ evs)
    (h2 : ∀ e, LoadEvent.workerErr e ∉ evs)
    (h3 : LoadEvent.timerFire ∈ evs) :
    (runLoad evs).result =
      some (LoadResult.rejected "Stockfish initialization timed out") := by
  have hall : ∀ e ∈ evs, e = LoadEvent.timerFire := by
    intro e he
    cases e with
    | lmsg m => exact absurd he (h1 m)
    | timerFire => rfl
    | workerErr e' => exact absurd he (h2 e')
  rcases evs with _ | ⟨e, rest⟩
  · simp at h3
  · have he := hall e (by simp)
    subst he
    unfold runLoad
    simp only [List.foldl_cons]
    rw [show loadStep initLoadState LoadEvent.timerFire = timeoutState from rfl]
    rw [fires_from_timeout rest (fun e' he' => hall e' (List.mem_cons_of_mem _ he'))]
    rfl

theorem load_resolved_mem (evs : List LoadEvent) :
    ∀ s : LoadState, (List.foldl loadStep s evs).result = some LoadResult.resolved →
      s.result = some LoadResult.resolved ∨ LoadEvent.lmsg "uciok" ∈ evs := by
  induction evs with
  | nil =>
    intro s h
    exact Or.inl h
  | cons e rest ih =>
    intro s h
    rcases ih (loadStep s e) h with h' | h'
    · cases e with
      | lmsg m =>
        by_cases hm : m = "uciok"
        · right
          rw [hm]
          simp
        · left
          have heq : (loadStep s (LoadEvent.lmsg m)).result = s.result := by
            simp only [loadStep]
            split_ifs with hc
            · exact absurd hc.2.1 hm
            · rfl
          rw [← heq]
          exact h'
      | timerFire =>
        left
        revert h'
        simp only [loadStep]
        split_ifs with hc
        · intro h''
          rcases settle_resolved s.result _ h'' with hr | hr
          · exact hr
          · exact absurd hr (by simp)
        · exact id
      | workerErr e' =>
        left
        revert h'
        simp only [loadStep]
        intro h''
        rcases settle_resolved s.result _ h'' with hr | hr
        · exact hr
        · exact absurd hr (by simp)
    · exact Or.inr (List.mem_cons_of_mem _ h')

theorem handleInfoMessage_no_status (conv : String → List String → List String)
    (msg : List Char) (s : SFState) :
    ∀ o ∈ (handleInfoMessage conv msg s).2, ∀ st, o ≠ Output.status st := by
  have hio : ∀ o ∈ (if infoNonempty (parseInfoLine msg) = true then
      [Output.infoUpdate (parseInfoLine msg)] else []),
      ∀ st, o ≠ Output.status st := by
    intro o ho st
    split_ifs at ho
    · rw [List.mem_singleton] at ho
      rw [ho]
      simp
    · simp at ho
  rcases hpv : matchPv msg with _ | pvStr
  · rw [handleInfoMessage_eq_none conv msg s hpv]
    exact hio
  · rw [handleInfoMessage_eq_some conv msg s pvStr hpv]
    by_cases hcond : ((parseInfoLine msg).multipv.isSome = true ∧
        (parseInfoLine msg).multipv ≠ some 0) ∧
        ((parseInfoLine msg).score.isSome = true ∨
          (parseInfoLine msg).mate.isSome = true)
    · rw [if_pos hcond]
      intro o ho st
      rcases List.mem_append.mp ho with ho' | ho'
      · exact hio o ho' st
      · rcases processVariation_cases conv pvStr (parseInfoLine msg) s with
          heq | ⟨mpv, _, _, _, heq⟩
        · rw [heq] at ho'
          simp at ho'
        · rw [heq] at ho'
          simp at ho'
          rw [ho']
          simp
    · rw [if_neg hcond]
      exact hio

theorem status_ready_only_uciok (conv : String → List String → List String)
    (msg : String) (s : SFState)
    (h : Output.status { state := EngineStateTag.ready, error := none } ∈
      (handleMessage conv msg s).2) : msg = "uciok" := by
  unfold handleMessage at h
  split_ifs at h with h1 h2 h3 h4 h5
  · simp at h
  · exact h2
  · simp at h
  · simp at h
  · exact absurd rfl
      (handleInfoMessage_no_status conv msg.toList s _ h
        { state := EngineStateTag.ready, error := none })
  · simp at h

/-- C9 counterexample: a process that emits one banner line and never
the handshake line leaves initialization pending forever — the first
message of any kind clears the 10-second timer (the `{ once: true }`
listener at lines 300-302), so the later timer deadline fires nothing:
no timeout rejection, no Error status, contradicting the claim. -/
theorem c9_counterexample :
    LoadEvent.lmsg "uciok" ∉
      [LoadEvent.lmsg "id name Stockfish 16", LoadEvent.timerFire] ∧
    (runLoad [LoadEvent.lmsg "id name Stockfish 16",
      LoadEvent.timerFire]).result = none ∧
    initRun [LoadEvent.lmsg "id name Stockfish 16", LoadEvent.timerFire] =
      [Output.status { state := EngineStateTag.initializing, error := none }] := by
  decide

/-- C9 amended: if the engine process emits no message at all before the
10-second timer fires (and no worker error occurs), initialization
rejects with the timeout error and the observer sees exactly the
`initializing` status followed by exactly one `error` status; a first
message of any kind disarms the timer, so the timeout is only guaranteed
in that case.  Initialization resolves only after a `uciok` message, and
the session's `ready` status is emitted only for a `uciok` message —
never merely because the worker process was created. -/
theorem c9_init_timeout_amended :
    (∀ evs : List LoadEvent,
      (∀ m, LoadEvent.lmsg m ∉ evs) → (∀ e, LoadEvent.workerErr e ∉ evs) →
      LoadEvent.timerFire ∈ evs →
      (runLoad evs).result =
        some (LoadResult.rejected "Stockfish initialization timed out") ∧
      initRun evs =
        [Output.status { state := EngineStateTag.initializing, error := none },
         Output.status
           { state := EngineStateTag.error
             error := some "Stockfish initialization timed out" }] ∧
      (initRun evs).countP isErrorStatus = 1) ∧
    (∀ (evs : List LoadEvent) (s : LoadState),
      (List.foldl loadStep s evs).result = some LoadResult.resolved →
      s.result = some LoadResult.resolved ∨ LoadEvent.lmsg "uciok" ∈ evs) ∧
    (∀ (conv : String → List String → List String) (msg : String) (s : SFState),
      Output.status { state := EngineStateTag.ready, error := none } ∈
        (handleMessage conv msg s).2 → msg = "uciok") := by
  refine ⟨?_, load_resolved_mem, status_ready_only_uciok⟩
  intro evs h1 h2 h3
  have hres := load_timeout evs h1 h2 h3
  refine ⟨hres, ?_, ?_⟩
  · unfold initRun
    rw [hres]
  · unfold initRun
    rw [hres]
    rfl

/-- Witness for C9's amended theorem: the pure-timeout trace, a resolving
trace, and the ready status on `uciok`. -/
theorem c9_init_timeout_amended_witness :
    ((runLoad [LoadEvent.timerFire]).result =
      some (LoadResult.rejected "Stockfish initialization timed out") ∧
    initRun [LoadEvent.timerFire] =
      [Output.status { state := EngineStateTag.initializing, error := none },
       Output.status
         { state := EngineStateTag.error
           error := some "Stockfish initialization timed out" }] ∧
    (initRun [LoadEvent.timerFire]).countP isErrorStatus = 1) ∧
    (initLoadState.result = some LoadResult.resolved ∨
      LoadEvent.lmsg "uciok" ∈ [LoadEvent.lmsg "uciok"]) ∧
    ("uciok" : String) = "uciok" := by
  refine ⟨?_, ?_, ?_⟩
  · exact c9_init_timeout_amended.1 [LoadEvent.timerFire]
      (by intro m h; simp at h) (by intro e h; simp at h) (by decide)
  · exact c9_init_timeout_amended.2.1 [LoadEvent.lmsg "uciok"] initLoadState
      (by decide)
  · exact c9_init_timeout_amended.2.2 convId "uciok"
      (initState defaultConfig "startpos") (by decide)
